import Mathlib

/-!
Shallow embedding of src/generate2.py, the manifest generator of the
FlightfulOS apps repository.

The script scans apps/packages/<pkg>/<version>/ directories, validates the
signature, badging metadata, compression companions and content hashes of
every .apk artifact, aggregates per-version variant records into a
per-package history (dropping variants on the "old" release channel from
the emitted mapping), and finally serializes and signs a manifest.

Modelling conventions:
- Python exceptions become an explicit error type Err; every construct of
  the script that can raise (assert, dict lookup, list indexing, int(),
  str concatenation with a non-str, .append on a non-list, subprocess
  failure, os.path.getmtime on a missing file) is modelled by the
  corresponding Err constructor.
- External tools (apksigner, aapt2, signify, compress-apks) are opaque
  collaborators: the environment carries their would-be output for every
  artifact (None modelling a failed invocation), and the embedding records
  every invocation and every file write as an Event, in program order.
- shlex tokenization and TOML parsing are external parsers (out of scope
  per the spec), so aapt2 badging output is carried as already-tokenized
  lines and props files as already-parsed key/value lists.
- sha256 (hashlib) and json.dump are opaque pure primitives, passed in as
  function parameters hashFn and serializeFn.
- TOML / JSON style dynamic values are modelled by PVal (strings, ints,
  lists, string-keyed tables), and Python dicts by insertion-ordered
  association lists with Python dict update semantics (dictSet).
- Python strings are modelled by Lean String; all operations used by the
  script (startswith, endswith, split, splitlines, in, <, int()) are
  implemented on the underlying character lists with Python semantics.
-/

namespace AppsRepo

/-- Python values appearing in props files and in the pkg_props dict.
(Python dict equality is order-insensitive; the order-sensitive dict case
of pvalEq below is never exercised by the script, which only compares
values against ints and strings.) -/
inductive PVal where
  | str (s : String)
  | int (n : Int)
  | list (l : List PVal)
  | dict (d : List (String × PVal))

/-- A Python dict with string keys, as an insertion-ordered assoc list. -/
abbrev Dict := List (String × PVal)

mutual

/-- Python == between dynamic values. -/
def pvalEq : PVal → PVal → Bool
  | .str a, .str b => a == b
  | .int a, .int b => a == b
  | .list a, .list b => pvalListEq a b
  | .dict a, .dict b => pvalDictEq a b
  | _, _ => false

def pvalListEq : List PVal → List PVal → Bool
  | [], [] => true
  | a :: as, b :: bs => pvalEq a b && pvalListEq as bs
  | _, _ => false

def pvalDictEq : List (String × PVal) → List (String × PVal) → Bool
  | [], [] => true
  | (ka, va) :: as, (kb, vb) :: bs => ka == kb && pvalEq va vb && pvalDictEq as bs
  | _, _ => false

end

/-- dict[k], returning none on a missing key. -/
def dictGet? (d : Dict) (k : String) : Option PVal :=
  (d.find? (fun p => p.1 == k)).map (fun p => p.2)

/-- dict[k] = v: replace in place if the key exists, else append
(Python dicts preserve insertion order). -/
def dictSet (d : Dict) (k : String) (v : PVal) : Dict :=
  if d.any (fun p => p.1 == k) then d.map (fun p => if p.1 == k then (k, v) else p)
  else d ++ [(k, v)]

/-- The errors the script can die with. -/
inductive Err where
  | assertFail
  | keyError (k : String)
  | indexError
  | typeError
  | valueError
  | attrError
  | fileNotFound
  | exc (msg : String)
  | toolFail (tool : String)
deriving Repr, DecidableEq

/-- Observable actions of a run: subprocess invocations and file writes,
recorded in program order. -/
inductive Event where
  | callCompress
  | callApksigner (path : String)
  | callAapt2 (path : String)
  | writeSidecar (path : String) (content : String)
  | writeJson (content : String)
  | callSignify
  | writeSjson (content : String)
deriving Repr, DecidableEq

/-- str.startswith. -/
def pyStartswith (s pre : String) : Bool := pre.data.isPrefixOf s.data

/-- str.endswith. -/
def pyEndswith (s suf : String) : Bool := suf.data.isSuffixOf s.data

/-- Python string < / <= comparison: lexicographic by code point. -/
def strLeData : List Char → List Char → Bool
  | [], _ => true
  | _ :: _, [] => false
  | x :: xs, y :: ys =>
    if x.toNat < y.toNat then true
    else if y.toNat < x.toNat then false
    else strLeData xs ys

def pyStrLe (a b : String) : Bool := strLeData a.data b.data

/-- str.split(sep) for a nonempty separator (fuel-recursive,
leftmost non-overlapping matches, keeps empty pieces). -/
def splitData (sep : List Char) : Nat → List Char → List (List Char)
  | _, [] => [[]]
  | 0, s => [s]
  | fuel + 1, c :: cs =>
    if sep.isPrefixOf (c :: cs) && !sep.isEmpty then
      [] :: splitData sep fuel ((c :: cs).drop sep.length)
    else
      match splitData sep fuel cs with
      | [] => [[c]]
      | h :: t => (c :: h) :: t

def pySplit (s sep : String) : List String :=
  (splitData sep.data (s.data.length + 1) s.data).map String.mk

/-- str.splitlines (the script only ever meets newline-separated text,
so only the \n separator is modelled). -/
def pySplitlines (s : String) : List String :=
  let parts := splitData [('\n')] (s.data.length + 1) s.data
  let parts :=
    match parts.getLast? with
    | some [] => parts.dropLast
    | _ => parts
  parts.map String.mk

/-- list[i] / str.split(...)[i]: IndexError when out of range. -/
def pyIdx : List α → Nat → Except Err α := fun l i =>
  match l.get? i with
  | some a => .ok a
  | none => .error .indexError

/-- Value of a nonempty digit string. -/
def digitsVal : List Char → Nat → Option Nat
  | [], acc => some acc
  | c :: cs, acc => if c.isDigit then digitsVal cs (acc * 10 + (c.toNat - 48)) else none

/-- int(s): optional sign followed by at least one digit
(surrounding whitespace and digit-group underscores, which Python also
accepts, never occur in this pipeline and are not modelled). -/
def pyInt? (s : String) : Option Int :=
  match s.data with
  | [] => none
  | ('-') :: [] => none
  | ('-') :: ds => (digitsVal ds 0).map (fun n => -(n : Int))
  | ('+') :: [] => none
  | ('+') :: ds => (digitsVal ds 0).map (fun n => (n : Int))
  | ds => (digitsVal ds 0).map (fun n => (n : Int))

def containsData (n : List Char) : List Char → Bool
  | [] => n.isPrefixOf []
  | c :: cs => n.isPrefixOf (c :: cs) || containsData n cs

/-- Python "x in y" for a string needle x: substring test on a str,
element equality on a list, key membership on a dict, TypeError on an int. -/
def pyIn (needle : String) (container : PVal) : Except Err Bool :=
  match container with
  | .str s => .ok (containsData needle.data s.data)
  | .list l => .ok (l.any (fun v => pvalEq v (.str needle)))
  | .dict d => .ok (d.any (fun p => p.1 == needle))
  | .int _ => .error .typeError

/-- Would ", ".join(v) succeed? (str: joins its characters; list: all
elements must be str; dict: iterates its keys, which are str here.) -/
def pyJoinOK : PVal → Bool
  | .str _ => true
  | .int _ => false
  | .list l => l.all (fun v => match v with | .str _ => true | _ => false)
  | .dict _ => true

/-- Python "v == apk_version_code" where the right side is None or an int
(no modelled PVal is Python None, so the none case is always False). -/
def pvalEqPyOpt (v : PVal) (o : Option Int) : Bool :=
  match o with
  | none => false
  | some n => pvalEq v (.int n)

/-- One line of apksigner output, split by the anchored regex
"Signer #[0-9]+ certificate SHA-256 digest: "; some rest when the line
matches (re.split then yields two pieces), none otherwise. -/
def stripLead (pre s : List Char) : Option (List Char) :=
  match pre, s with
  | [], rest => some rest
  | _ :: _, [] => none
  | p :: ps, c :: cs => if p == c then stripLead ps cs else none

def signerSplit (line : String) : Option String :=
  match stripLead ("Signer #").data line.data with
  | none => none
  | some r =>
    match r.takeWhile Char.isDigit with
    | [] => none
    | _ :: _ =>
      match stripLead (" certificate SHA-256 digest: ").data (r.dropWhile Char.isDigit) with
      | none => none
      | some rest => some (String.mk rest)

/-- The signer-collecting loop of load_signature: sig_hash starts None,
a second signer line raises, and the final value is returned. -/
def loadSigLoop (path : String) : List String → Option String → Except Err (Option String)
  | [], acc => .ok acc
  | l :: ls, acc =>
    match signerSplit l with
    | none => loadSigLoop path ls acc
    | some rest =>
      match acc with
      | some _ => .error (.exc (path ++ (" has more than one signer")))
      | none => loadSigLoop path ls (some rest)

/-- load_signature(apk_path): run apksigner (output carried by the
environment; none models a failed invocation) and parse out the single
certificate digest. -/
def load_signature (path : String) (output : Option (List String)) : Except Err String :=
  match output with
  | none => .error (.toolFail ("apksigner"))
  | some lines =>
    match loadSigLoop path lines none with
    | .error e => .error e
    | .ok none => .error (.exc (("didn\x27t find signature of ") ++ path))
    | .ok (some h) => .ok h

/-- One .apk file of a version directory together with everything the
filesystem and the external tools would say about it. -/
structure ApkEntry where
  name : String
  mtime : Int
  size : Nat
  gz : Option (Int × Nat)
  br : Option (Int × Nat)
  sidecar : Option String
  sigOutput : Option (List String)
  badging : Option (List (List String))
  content : List Nat

/-- One version subdirectory of a package. -/
structure VersionDir where
  name : String
  apks : List ApkEntry
  props : Option Dict

/-- One package directory. -/
structure PackageDir where
  name : String
  commonProps : Option Dict
  hasIcon : Bool
  versions : List VersionDir

/-- The whole input world of one run. -/
structure Env where
  compressExit : Int
  packages : List PackageDir
  signify : Option String
  now : Int

/-- load_props(dir, name): missing file yields an empty dict. -/
def load_props (props : Option Dict) : Dict := props.getD []

/-- sorted(...) on names (Python sorts strings by code point). -/
def insByKey (nm : α → String) (a : α) : List α → List α
  | [] => [a]
  | b :: bs => if pyStrLe (nm a) (nm b) then a :: b :: bs else b :: insByKey nm a bs

def sortByKey (nm : α → String) (l : List α) : List α := l.foldr (insByKey nm) []

/-- Context threaded through the per-artifact loop of one version. -/
structure ApkCtx where
  pkgName : String
  pkgPath : String
  baseSig : String
  hashFn : List Nat → String

def apkPathOf (ctx : ApkCtx) (apk : ApkEntry) : String :=
  ctx.pkgPath ++ ("/") ++ apk.name

/-- pkg_props[k].append(v): KeyError on a missing key, AttributeError
when the stored value is not a list. -/
def dictAppend (d : Dict) (k : String) (v : PVal) : Except Err Dict :=
  match dictGet? d k with
  | none => .error (.keyError k)
  | some (.list l) => .ok (dictSet d k (.list (l ++ [v])))
  | some _ => .error .attrError

/-- Lines 155-159: append hash, raw size, both compressed sizes and the
file name to the five parallel lists. -/
def appendSizes (st : Dict) (apk : ApkEntry) (h : String) (gzS brS : Nat) : Except Err Dict :=
  match dictAppend st ("apkHashes") (.str h) with
  | .error e => .error e
  | .ok st1 =>
    match dictAppend st1 ("apkSizes") (.int (apk.size : Int)) with
    | .error e => .error e
    | .ok st2 =>
      match dictAppend st2 ("apkGzSizes") (.int (gzS : Int)) with
      | .error e => .error e
      | .ok st3 =>
        match dictAppend st3 ("apkBrSizes") (.int (brS : Int)) with
        | .error e => .error e
        | .ok st4 => dictAppend st4 ("apks") (.str apk.name)

/-- lines[0] of the aapt2 output (bytes.split always yields at least one
piece; an empty output tokenizes to no tokens). -/
def firstLine (blines : List (List String)) : List String := blines.headD []

/-- Lines 138-144: the badging loop of the cache-miss branch, over the
tokens of the first aapt2 output line; collects the single versionCode
and checks declared package names. -/
def splitBadgeLoop (pkgName : String) : List String → Option Int → Except Err (Option Int)
  | [], acc => .ok acc
  | kv :: rest, acc =>
    if pyStartswith kv ("versionCode") then
      match acc with
      | some _ => .error .assertFail
      | none =>
        match pyIdx (pySplit kv ("=")) 1 with
        | .error e => .error e
        | .ok s =>
          match pyInt? s with
          | none => .error .valueError
          | some n => splitBadgeLoop pkgName rest (some n)
    else if pyStartswith kv ("name") then
      match pyIdx (pySplit kv ("=")) 1 with
      | .error e => .error e
      | .ok s => if pkgName == s then splitBadgeLoop pkgName rest acc else .error .assertFail
    else splitBadgeLoop pkgName rest acc

/-- Lines 115-159: process one artifact file of the version directory. -/
def processApk (ctx : ApkCtx) (st : Dict) (apk : ApkEntry) : Except Err Dict × List Event :=
  let apkPath := apkPathOf ctx apk
  match apk.gz with
  | none => (.error .fileNotFound, [])
  | some (gzM, gzS) =>
    if apk.mtime != gzM then (.error .assertFail, []) else
    match apk.br with
    | none => (.error .fileNotFound, [])
    | some (brM, brS) =>
      if apk.mtime != brM then (.error .assertFail, []) else
      match apk.sidecar with
      | some d => (appendSizes st apk d gzS brS, [])
      | none =>
        let ev1 := [Event.callApksigner apkPath]
        match load_signature apkPath apk.sigOutput with
        | .error e => (.error e, ev1)
        | .ok s =>
          if s != ctx.baseSig then
            (.error (.exc (("signature mismatch, apk: ") ++ apkPath)), ev1)
          else
            let ev2 := ev1 ++ [Event.callAapt2 apkPath]
            match apk.badging with
            | none => (.error (.toolFail ("aapt2")), ev2)
            | some blines =>
              match splitBadgeLoop ctx.pkgName (firstLine blines) none with
              | .error e => (.error e, ev2)
              | .ok vco =>
                match dictGet? st ("versionCode") with
                | none => (.error (.keyError ("versionCode")), ev2)
                | some v =>
                  if pvalEqPyOpt v vco = false then (.error .assertFail, ev2)
                  else
                    let h := ctx.hashFn apk.content
                    let ev3 := ev2 ++ [Event.writeSidecar (apkPath ++ (".sha256")) h]
                    (appendSizes st apk h gzS brS, ev3)

/-- The sorted artifact loop of one version. -/
def processApks (ctx : ApkCtx) : Dict → List ApkEntry → Except Err Dict × List Event
  | st, [] => (.ok st, [])
  | st, a :: rest =>
    match processApk ctx st a with
    | (.error e, evs) => (.error e, evs)
    | (.ok st2, evs) =>
      match processApks ctx st2 rest with
      | (r, evs2) => (r, evs ++ evs2)

/-- Lines 72-78: the first badging line of the primary artifact. -/
def baseBadgeLoop1 (pkgName : String) : Dict → List String → Except Err Dict
  | st, [] => .ok st
  | st, kv :: rest =>
    if pyStartswith kv ("versionName") then
      match pyIdx (pySplit kv ("=")) 1 with
      | .error e => .error e
      | .ok s => baseBadgeLoop1 pkgName (dictSet st ("versionName") (.str s)) rest
    else if pyStartswith kv ("versionCode") then
      match dictGet? st ("versionCode") with
      | none => .error (.keyError ("versionCode"))
      | some v =>
        match pyIdx (pySplit kv ("=")) 1 with
        | .error e => .error e
        | .ok s =>
          match pyInt? s with
          | none => .error .valueError
          | some n =>
            if pvalEq v (.int n) then baseBadgeLoop1 pkgName st rest else .error .assertFail
    else if pyStartswith kv ("name") then
      match pyIdx (pySplit kv ("=")) 1 with
      | .error e => .error e
      | .ok s => if pkgName == s then baseBadgeLoop1 pkgName st rest else .error .assertFail
    else baseBadgeLoop1 pkgName st rest

/-- Lines 80-91: the remaining badging lines (all but the first and the
trailing one) of the primary artifact. -/
def baseBadgeLoop2 : Dict → List (List String) → Except Err Dict
  | st, [] => .ok st
  | st, kv :: rest =>
    match pyIdx kv 0 with
    | .error e => .error e
    | .ok k0 =>
      if pyStartswith k0 ("application-label:") then
        match pyIdx (pySplit k0 (":")) 1 with
        | .error e => .error e
        | .ok s => baseBadgeLoop2 (dictSet st ("label") (.str s)) rest
      else if pyStartswith k0 ("sdkVersion") then
        match pyIdx (pySplit k0 (":")) 1 with
        | .error e => .error e
        | .ok s =>
          match pyInt? s with
          | none => .error .valueError
          | some n => baseBadgeLoop2 (dictSet st ("minSdk") (.int n)) rest
      else if pyStartswith k0 ("native-code") then
        match pyIdx kv 1 with
        | .error e => .error e
        | .ok abi =>
          if [("arm64-v8a"), ("x86_64"), ("armeabi-v7a"), ("x86")].contains abi then
            match dictGet? st ("abis") with
            | some _ => .error .assertFail
            | none => baseBadgeLoop2 (dictSet st ("abis") (.list [.str abi])) rest
          else .error .assertFail
      else baseBadgeLoop2 st rest

/-- Lines 94-95: layer the per-version props.toml overrides on top. -/
def mergeProps (st : Dict) (over : Dict) : Dict :=
  over.foldl (fun d p => dictSet d p.1 p.2) st

def channelNames : List String := [("alpha"), ("beta"), ("stable"), ("old")]

/-- Lines 99-113: building pkg_msg only prints, but its string
concatenations and joins can raise TypeError on override values of the
wrong shape; this models exactly those effects. -/
def msgChecks (st : Dict) : Except Err Unit :=
  match dictGet? st ("channel") with
  | none => .error (.keyError ("channel"))
  | some (.str _) =>
    match dictGet? st ("minSdk") with
    | none => .error (.keyError ("minSdk"))
    | some _ =>
      match dictGet? st ("maxSdk") with
      | some (.str _) | none =>
        match dictGet? st ("abis") with
        | some v =>
          if pyJoinOK v then joinTail st else .error .typeError
        | none => joinTail st
      | some _ => .error .typeError
  | some _ => .error .typeError
where
  joinTail (st : Dict) : Except Err Unit :=
    match dictGet? st ("staticDeps") with
    | some v =>
      if pyJoinOK v then joinLast st else .error .typeError
    | none => joinLast st
  joinLast (st : Dict) : Except Err Unit :=
    match dictGet? st ("deps") with
    | some v => if pyJoinOK v then .ok () else .error .typeError
    | none => .ok ()

/-- The initial pkg_props dict of line 58. -/
def initProps (vcode : Int) : Dict :=
  [(("versionCode"), .int vcode), (("apks"), .list []), (("apkHashes"), .list []),
   (("apkSizes"), .list []), (("apkGzSizes"), .list []), (("apkBrSizes"), .list [])]

/-- Lines 52-166: process one version directory, returning some
(version, variant) to publish, or none for the retention-exempt "old"
channel (still fully processed). -/
def processVersion (hashFn : List Nat → String) (pkgName containerPath : String)
    (sigsPV : PVal) (vd : VersionDir) : Except Err (Option (String × Dict)) × List Event :=
  let pkgPath := containerPath ++ ("/") ++ vd.name
  match pyInt? vd.name with
  | none => (.error .valueError, [])
  | some vcode =>
    let basePath := pkgPath ++ ("/base.apk")
    match vd.apks.find? (fun a => a.name == ("base.apk")) with
    | none => (.error .assertFail, [])
    | some base =>
      let ev1 := [Event.callApksigner basePath]
      match load_signature basePath base.sigOutput with
      | .error e => (.error e, ev1)
      | .ok baseSig =>
        match pyIn baseSig sigsPV with
        | .error e => (.error e, ev1)
        | .ok inSet =>
          if !inSet then
            (.error (.exc (("unknown signature of ") ++ basePath ++ (", SHA-256: ") ++ baseSig)),
             ev1)
          else
            let ev2 := ev1 ++ [Event.callAapt2 basePath]
            match base.badging with
            | none => (.error (.toolFail ("aapt2")), ev2)
            | some blines =>
              match baseBadgeLoop1 pkgName (initProps vcode) (firstLine blines) with
              | .error e => (.error e, ev2)
              | .ok st1 =>
                match baseBadgeLoop2 st1 ((blines.drop 1).dropLast) with
                | .error e => (.error e, ev2)
                | .ok st2 =>
                  if (dictGet? st2 ("minSdk")).isNone then (.error .assertFail, ev2)
                  else
                    let st3 := mergeProps st2 (load_props vd.props)
                    match dictGet? st3 ("channel") with
                    | none => (.error (.keyError ("channel")), ev2)
                    | some chv =>
                      if !(channelNames.any (fun c => pvalEq chv (.str c))) then
                        (.error .assertFail, ev2)
                      else
                        match msgChecks st3 with
                        | .error e => (.error e, ev2)
                        | .ok _ =>
                          let ctx : ApkCtx :=
                            { pkgName := pkgName, pkgPath := pkgPath,
                              baseSig := baseSig, hashFn := hashFn }
                          let apkList :=
                            sortByKey ApkEntry.name
                              (vd.apks.filter (fun a => pyEndswith a.name (".apk")))
                          match processApks ctx st3 apkList with
                          | (.error e, evs) => (.error e, ev2 ++ evs)
                          | (.ok st4, evs) =>
                            match dictGet? st4 ("channel") with
                            | none => (.error (.keyError ("channel")), ev2 ++ evs)
                            | some chv2 =>
                              if pvalEq chv2 (.str ("old")) then (.ok none, ev2 ++ evs)
                              else (.ok (some (vd.name, st4)), ev2 ++ evs)

/-- The sorted version loop of one package, accumulating
package_variants. -/
def processVersions (hashFn : List Nat → String) (pkgName containerPath : String)
    (sigsPV : PVal) : Dict → List VersionDir → Except Err Dict × List Event
  | acc, [] => (.ok acc, [])
  | acc, vd :: rest =>
    match processVersion hashFn pkgName containerPath sigsPV vd with
    | (.error e, evs) => (.error e, evs)
    | (.ok none, evs) =>
      match processVersions hashFn pkgName containerPath sigsPV acc rest with
      | (r, evs2) => (r, evs ++ evs2)
    | (.ok (some (k, v)), evs) =>
      match processVersions hashFn pkgName containerPath sigsPV (dictSet acc k (.dict v)) rest with
      | (r, evs2) => (r, evs ++ evs2)

/-- The common props of a package after the icon.webp check of
lines 44-47. -/
def iconProps (pd : PackageDir) : Dict :=
  if pd.hasIcon then dictSet (load_props pd.commonProps) ("iconType") (.str ("webp"))
  else load_props pd.commonProps

/-- Lines 42-169: process one package directory. -/
def processPackage (hashFn : List Nat → String) (pd : PackageDir) :
    Except Err (String × PVal) × List Event :=
  let containerPath := ("apps/packages/") ++ pd.name
  let cp1 := iconProps pd
  match dictGet? cp1 ("signatures") with
  | none => (.error (.keyError ("signatures")), [])
  | some sigsPV =>
    match processVersions hashFn pd.name containerPath sigsPV []
        (sortByKey VersionDir.name pd.versions) with
    | (.error e, evs) => (.error e, evs)
    | (.ok variants, evs) =>
      (.ok (pd.name, .dict (dictSet cp1 ("variants") (.dict variants))), evs)

/-- The sorted package loop, accumulating the top-level packages dict. -/
def processPackages (hashFn : List Nat → String) :
    Dict → List PackageDir → Except Err Dict × List Event
  | acc, [] => (.ok acc, [])
  | acc, pd :: rest =>
    match processPackage hashFn pd with
    | (.error e, evs) => (.error e, evs)
    | (.ok (k, v), evs) =>
      match processPackages hashFn (dictSet acc k v) rest with
      | (r, evs2) => (r, evs ++ evs2)

/-- The whole script: compress-apks first, then the package walk, then
manifest serialization, signing, and the signed secondary file. -/
def run (env : Env) (hashFn : List Nat → String) (serializeFn : Int → Dict → String) :
    Except Err (Int × Dict) × List Event :=
  let ev0 := [Event.callCompress]
  if env.compressExit != 0 then (.error .assertFail, ev0)
  else
    match processPackages hashFn [] (sortByKey PackageDir.name env.packages) with
    | (.error e, evs) => (.error e, ev0 ++ evs)
    | (.ok pkgs, evs) =>
      let doc := serializeFn env.now pkgs
      let ev1 := ev0 ++ evs ++ [Event.writeJson doc, Event.callSignify]
      match env.signify with
      | none => (.error (.toolFail ("signify")), ev1)
      | some sigFile =>
        match pyIdx (pySplitlines sigFile) 1 with
        | .error e => (.error e, ev1)
        | .ok sig =>
          (.ok (env.now, pkgs), ev1 ++ [Event.writeSjson (doc ++ ("\n") ++ sig ++ ("\n"))])

/-! ## Association-list (Python dict) lemmas -/

theorem find?_map_set (d : Dict) (k : String) (v : PVal)
    (h : d.any (fun p => p.1 == k) = true) :
    (d.map (fun p => if p.1 == k then (k, v) else p)).find? (fun p => p.1 == k) =
      some (k, v) := by
  induction d with
  | nil => simp at h
  | cons p d ih =>
    by_cases hp : (p.1 == k) = true
    · rw [List.map_cons, if_pos hp, List.find?_cons_of_pos _ (by simp)]
    · simp only [List.any_cons, Bool.or_eq_true] at h
      rcases h with h | h
      · exact absurd h hp
      · rw [List.map_cons, if_neg hp, List.find?_cons_of_neg _ (by simpa using hp)]
        exact ih h

theorem find?_append_set (d : Dict) (k : String) (v : PVal)
    (h : d.any (fun p => p.1 == k) = false) :
    (d ++ [(k, v)]).find? (fun p => p.1 == k) = some (k, v) := by
  induction d with
  | nil => rw [List.nil_append, List.find?_cons_of_pos _ (by simp)]
  | cons p d ih =>
    simp only [List.any_cons, Bool.or_eq_false_iff] at h
    rw [List.cons_append, List.find?_cons_of_neg _ (by simp [h.1])]
    exact ih (by simp [h.2])

theorem dictGet?_set_self (d : Dict) (k : String) (v : PVal) :
    dictGet? (dictSet d k v) k = some v := by
  rw [dictSet]
  by_cases h : d.any (fun p => p.1 == k) = true
  · rw [if_pos h, dictGet?, find?_map_set d k v h]; rfl
  · rw [if_neg h, dictGet?,
      find?_append_set d k v (by simp only [Bool.not_eq_true] at h; exact h)]
    rfl

theorem find?_map_set_ne (d : Dict) (k k2 : String) (v : PVal) (hke : (k == k2) = false) :
    (d.map (fun p => if p.1 == k then (k, v) else p)).find? (fun p => p.1 == k2) =
      d.find? (fun p => p.1 == k2) := by
  induction d with
  | nil => rfl
  | cons p d ih =>
    by_cases hp : (p.1 == k) = true
    · have hpk : p.1 = k := by simpa using hp
      rw [List.map_cons, if_pos hp, List.find?_cons_of_neg _ (by simp [hke]),
        List.find?_cons_of_neg _ (by simp [hpk, hke])]
      exact ih
    · rw [List.map_cons, if_neg hp]
      by_cases hq : (p.1 == k2) = true
      · rw [List.find?_cons_of_pos _ (by simpa using hq),
          List.find?_cons_of_pos _ (by simpa using hq)]
      · rw [List.find?_cons_of_neg _ (by simpa using hq),
          List.find?_cons_of_neg _ (by simpa using hq)]
        exact ih

theorem find?_append_ne (d : Dict) (k k2 : String) (v : PVal) (hke : (k == k2) = false) :
    (d ++ [(k, v)]).find? (fun p => p.1 == k2) = d.find? (fun p => p.1 == k2) := by
  induction d with
  | nil => rw [List.nil_append, List.find?_cons_of_neg _ (by simp [hke])]
  | cons p d ih =>
    by_cases hq : (p.1 == k2) = true
    · rw [List.cons_append, List.find?_cons_of_pos _ (by simpa using hq),
        List.find?_cons_of_pos _ (by simpa using hq)]
    · rw [List.cons_append, List.find?_cons_of_neg _ (by simpa using hq),
        List.find?_cons_of_neg _ (by simpa using hq)]
      exact ih

theorem dictGet?_set_ne (d : Dict) (k k2 : String) (v : PVal) (h : (k2 == k) = false) :
    dictGet? (dictSet d k v) k2 = dictGet? d k2 := by
  have hke : (k == k2) = false := by
    simp only [beq_eq_false_iff_ne] at h ⊢; exact fun e => h e.symm
  rw [dictSet]
  by_cases ha : d.any (fun p => p.1 == k) = true
  · rw [if_pos ha, dictGet?, dictGet?, find?_map_set_ne d k k2 v hke]
  · rw [if_neg ha, dictGet?, dictGet?, find?_append_ne d k k2 v hke]

theorem dictAppend_ok (d : Dict) (k : String) (v : PVal) (d2 : Dict)
    (h : dictAppend d k v = .ok d2) :
    ∃ l, dictGet? d k = some (.list l) ∧ d2 = dictSet d k (.list (l ++ [v])) := by
  rw [dictAppend] at h
  cases hg : dictGet? d k with
  | none => rw [hg] at h; cases h
  | some pv =>
    rw [hg] at h
    cases pv with
    | list l => exact ⟨l, rfl, by cases h; rfl⟩
    | str s => cases h
    | int n => cases h
    | dict dd => cases h

theorem dictAppend_get_self (d : Dict) (k : String) (v : PVal) (d2 : Dict) (l : List PVal)
    (h : dictAppend d k v = .ok d2) (hg : dictGet? d k = some (.list l)) :
    dictGet? d2 k = some (.list (l ++ [v])) := by
  obtain ⟨l2, hg2, rfl⟩ := dictAppend_ok d k v d2 h
  rw [hg] at hg2
  cases hg2
  exact dictGet?_set_self ..

theorem dictAppend_get_ne (d : Dict) (k k2 : String) (v : PVal) (d2 : Dict)
    (h : dictAppend d k v = .ok d2) (hne : (k2 == k) = false) :
    dictGet? d2 k2 = dictGet? d k2 := by
  obtain ⟨l2, _, rfl⟩ := dictAppend_ok d k v d2 h
  exact dictGet?_set_ne d k k2 _ hne

/-- appendSizes leaves every key other than the five parallel-list keys
untouched. -/
theorem appendSizes_get_other (st : Dict) (apk : ApkEntry) (h : String) (gzS brS : Nat)
    (st2 : Dict) (k : String) (hr : appendSizes st apk h gzS brS = .ok st2)
    (h1 : (k == ("apkHashes")) = false) (h2 : (k == ("apkSizes")) = false)
    (h3 : (k == ("apkGzSizes")) = false) (h4 : (k == ("apkBrSizes")) = false)
    (h5 : (k == ("apks")) = false) :
    dictGet? st2 k = dictGet? st k := by
  rw [appendSizes] at hr
  cases e1 : dictAppend st ("apkHashes") (.str h) with
  | error e => rw [e1] at hr; cases hr
  | ok d1 =>
    rw [e1] at hr; dsimp only at hr
    cases e2 : dictAppend d1 ("apkSizes") (.int (apk.size : Int)) with
    | error e => rw [e2] at hr; cases hr
    | ok d2 =>
      rw [e2] at hr; dsimp only at hr
      cases e3 : dictAppend d2 ("apkGzSizes") (.int (gzS : Int)) with
      | error e => rw [e3] at hr; cases hr
      | ok d3 =>
        rw [e3] at hr; dsimp only at hr
        cases e4 : dictAppend d3 ("apkBrSizes") (.int (brS : Int)) with
        | error e => rw [e4] at hr; cases hr
        | ok d4 =>
          rw [e4] at hr; dsimp only at hr
          calc dictGet? st2 k = dictGet? d4 k := dictAppend_get_ne _ _ _ _ _ hr h5
            _ = dictGet? d3 k := dictAppend_get_ne _ _ _ _ _ e4 h4
            _ = dictGet? d2 k := dictAppend_get_ne _ _ _ _ _ e3 h3
            _ = dictGet? d1 k := dictAppend_get_ne _ _ _ _ _ e2 h2
            _ = dictGet? st k := dictAppend_get_ne _ _ _ _ _ e1 h1

/-- appendSizes appends exactly the given digest to apkHashes. -/
theorem appendSizes_hashes (st : Dict) (apk : ApkEntry) (h : String) (gzS brS : Nat)
    (st2 : Dict) (l : List PVal) (hr : appendSizes st apk h gzS brS = .ok st2)
    (hg : dictGet? st ("apkHashes") = some (.list l)) :
    dictGet? st2 ("apkHashes") = some (.list (l ++ [.str h])) := by
  rw [appendSizes] at hr
  cases e1 : dictAppend st ("apkHashes") (.str h) with
  | error e => rw [e1] at hr; cases hr
  | ok d1 =>
    rw [e1] at hr; dsimp only at hr
    have hd1 : dictGet? d1 ("apkHashes") = some (.list (l ++ [.str h])) :=
      dictAppend_get_self _ _ _ _ _ e1 hg
    cases e2 : dictAppend d1 ("apkSizes") (.int (apk.size : Int)) with
    | error e => rw [e2] at hr; cases hr
    | ok d2 =>
      rw [e2] at hr; dsimp only at hr
      cases e3 : dictAppend d2 ("apkGzSizes") (.int (gzS : Int)) with
      | error e => rw [e3] at hr; cases hr
      | ok d3 =>
        rw [e3] at hr; dsimp only at hr
        cases e4 : dictAppend d3 ("apkBrSizes") (.int (brS : Int)) with
        | error e => rw [e4] at hr; cases hr
        | ok d4 =>
          rw [e4] at hr; dsimp only at hr
          calc dictGet? st2 ("apkHashes")
              = dictGet? d4 ("apkHashes") := dictAppend_get_ne _ _ _ _ _ hr (by decide)
            _ = dictGet? d3 ("apkHashes") := dictAppend_get_ne _ _ _ _ _ e4 (by decide)
            _ = dictGet? d2 ("apkHashes") := dictAppend_get_ne _ _ _ _ _ e3 (by decide)
            _ = some (.list (l ++ [.str h])) := by
                rw [dictAppend_get_ne _ _ _ _ _ e2 (by decide)]; exact hd1

/-! ## Signature extractor: characterization (claim C7) -/

theorem loadSigLoop_some (path : String) (lines : List String) (d : String) :
    loadSigLoop path lines (some d) =
      match lines.filterMap signerSplit with
      | [] => .ok (some d)
      | _ :: _ => .error (.exc (path ++ (" has more than one signer"))) := by
  induction lines with
  | nil => rfl
  | cons l ls ih =>
    simp only [loadSigLoop, List.filterMap_cons]
    cases h : signerSplit l with
    | none => exact ih
    | some r => rfl

theorem loadSigLoop_none (path : String) (lines : List String) :
    loadSigLoop path lines none =
      match lines.filterMap signerSplit with
      | [] => .ok none
      | [d] => .ok (some d)
      | _ :: _ :: _ => .error (.exc (path ++ (" has more than one signer"))) := by
  induction lines with
  | nil => rfl
  | cons l ls ih =>
    simp only [loadSigLoop, List.filterMap_cons]
    cases h : signerSplit l with
    | none => exact ih
    | some r =>
      try dsimp only
      rw [loadSigLoop_some]
      cases hf : ls.filterMap signerSplit with
      | nil => rfl
      | cons a t => rfl

/-- Claim C7: load_signature succeeds and returns the digest exactly when
the apksigner output contains exactly one signer-certificate line; with
zero such lines it fails with the missing-signature error, and with more
than one such line it fails with the multiple-signer error. -/
theorem claim_C7_load_signature_single_signer (path : String) (lines : List String) :
    load_signature path (some lines) =
      match lines.filterMap signerSplit with
      | [] => .error (.exc (("didn\x27t find signature of ") ++ path))
      | [d] => .ok d
      | _ :: _ :: _ => .error (.exc (path ++ (" has more than one signer"))) := by
  rw [load_signature, loadSigLoop_none]
  cases hf : lines.filterMap signerSplit with
  | nil => rfl
  | cons a t => cases t <;> rfl

/-! ## Hash cache (claims C4 and C10) -/

/-- Claim C4: when a sidecar digest file with contents D exists, the
artifact is not re-read (its content, signature output and badging output
are irrelevant and no subprocess or write event happens), and D itself is
the digest appended to the variant record. -/
theorem claim_C4_hash_cache_trust (ctx : ApkCtx) (st : Dict) (apk : ApkEntry) (D : String)
    (hsc : apk.sidecar = some D) :
    (∀ c o b, processApk ctx st apk =
        processApk ctx st { apk with content := c, sigOutput := o, badging := b }) ∧
    (processApk ctx st apk).2 = [] ∧
    (∀ st2 l, (processApk ctx st apk).1 = .ok st2 →
      dictGet? st ("apkHashes") = some (.list l) →
      dictGet? st2 ("apkHashes") = some (.list (l ++ [.str D]))) := by
  refine ⟨?_, ?_, ?_⟩
  · intro c o b
    cases hgz : apk.gz with
    | none => simp [processApk, hgz]
    | some g =>
      obtain ⟨gzM, gzS⟩ := g
      by_cases hm : (apk.mtime != gzM) = true
      · simp [processApk, hgz, hm]
      · cases hbr : apk.br with
        | none => simp [processApk, hgz, hm, hbr]
        | some b =>
          obtain ⟨brM, brS⟩ := b
          by_cases hb : (apk.mtime != brM) = true
          · simp [processApk, hgz, hm, hbr, hb]
          · simp [processApk, hgz, hm, hbr, hb, hsc, appendSizes, apkPathOf]
  · cases hgz : apk.gz with
    | none => simp [processApk, hgz]
    | some g =>
      obtain ⟨gzM, gzS⟩ := g
      by_cases hm : (apk.mtime != gzM) = true
      · simp [processApk, hgz, hm]
      · cases hbr : apk.br with
        | none => simp [processApk, hgz, hm, hbr]
        | some b =>
          obtain ⟨brM, brS⟩ := b
          by_cases hb : (apk.mtime != brM) = true
          · simp [processApk, hgz, hm, hbr, hb]
          · simp [processApk, hgz, hm, hbr, hb, hsc]
  · intro st2 l h1 h2
    cases hgz : apk.gz with
    | none => rw [processApk, hgz] at h1; cases h1
    | some g =>
      obtain ⟨gzM, gzS⟩ := g
      rw [processApk, hgz] at h1
      dsimp only at h1
      by_cases hm : (apk.mtime != gzM) = true
      · rw [if_pos hm] at h1; cases h1
      · rw [if_neg hm] at h1
        cases hbr : apk.br with
        | none => rw [hbr] at h1; cases h1
        | some b =>
          obtain ⟨brM, brS⟩ := b
          rw [hbr] at h1
          dsimp only at h1
          by_cases hb : (apk.mtime != brM) = true
          · rw [if_pos hb] at h1; cases h1
          · rw [if_neg hb] at h1
            rw [hsc] at h1
            dsimp only at h1
            exact appendSizes_hashes _ _ _ _ _ _ _ h1 h2

/-- All validations of the cache-miss branch for one artifact:
compression companions in sync, signature equal to the primary artifact,
badging version code equal to the current versionCode value. -/
def splitCacheMissOK (ctx : ApkCtx) (st : Dict) (apk : ApkEntry) : Prop :=
  (∃ gzS, apk.gz = some (apk.mtime, gzS)) ∧ (∃ brS, apk.br = some (apk.mtime, brS)) ∧
  load_signature (apkPathOf ctx apk) apk.sigOutput = .ok ctx.baseSig ∧
  ∃ blines vco v, apk.badging = some blines ∧
    splitBadgeLoop ctx.pkgName (firstLine blines) none = .ok vco ∧
    dictGet? st ("versionCode") = some v ∧ pvalEqPyOpt v vco = true

/-- Helper shape for claim C10: either every cache-miss validation passed
and the events are exactly apksigner, aapt2, sidecar write, or some
validation failed and no sidecar write happened. -/
theorem processApk_cachemiss_cases (ctx : ApkCtx) (st : Dict) (apk : ApkEntry)
    (hsc : apk.sidecar = none) :
    (splitCacheMissOK ctx st apk ∧
      (processApk ctx st apk).2 =
        [Event.callApksigner (apkPathOf ctx apk), Event.callAapt2 (apkPathOf ctx apk),
         Event.writeSidecar (apkPathOf ctx apk ++ (".sha256")) (ctx.hashFn apk.content)]) ∨
    (¬ splitCacheMissOK ctx st apk ∧
      ∀ p c, Event.writeSidecar p c ∉ (processApk ctx st apk).2) := by
  cases hgz : apk.gz with
  | none =>
    refine .inr ⟨?_, ?_⟩
    · rintro ⟨⟨g, hg⟩, -⟩; rw [hgz] at hg; cases hg
    · intro p c hp; simp [processApk, hgz] at hp
  | some g =>
    obtain ⟨gzM, gzS⟩ := g
    by_cases hm : (apk.mtime != gzM) = true
    · have hne : apk.mtime ≠ gzM := by simpa using hm
      refine .inr ⟨?_, ?_⟩
      · rintro ⟨⟨g2, hg⟩, -⟩
        rw [hgz] at hg
        injection hg with h1
        exact hne (congrArg Prod.fst h1).symm
      · intro p c hp; simp [processApk, hgz, hm] at hp
    · have hmeq : apk.mtime = gzM := by simpa using hm
      cases hbr : apk.br with
      | none =>
        refine .inr ⟨?_, ?_⟩
        · rintro ⟨-, ⟨b, hb⟩, -⟩; rw [hbr] at hb; cases hb
        · intro p c hp; simp [processApk, hgz, hm, hbr] at hp
      | some b =>
        obtain ⟨brM, brS⟩ := b
        by_cases hb : (apk.mtime != brM) = true
        · have hne : apk.mtime ≠ brM := by simpa using hb
          refine .inr ⟨?_, ?_⟩
          · rintro ⟨-, ⟨b2, hbb⟩, -⟩
            rw [hbr] at hbb
            injection hbb with h1
            exact hne (congrArg Prod.fst h1).symm
          · intro p c hp; simp [processApk, hgz, hm, hbr, hb] at hp
        · have hbeq : apk.mtime = brM := by simpa using hb
          cases hsig : load_signature (apkPathOf ctx apk) apk.sigOutput with
          | error e =>
            refine .inr ⟨?_, ?_⟩
            · rintro ⟨-, -, hs, -⟩; rw [hsig] at hs; cases hs
            · intro p c hp; simp [processApk, hgz, hm, hbr, hb, hsc, hsig] at hp
          | ok s =>
            by_cases hss : (s != ctx.baseSig) = true
            · have hne : s ≠ ctx.baseSig := by simpa using hss
              refine .inr ⟨?_, ?_⟩
              · rintro ⟨-, -, hs, -⟩
                rw [hsig] at hs
                injection hs with h1
                exact hne h1
              · intro p c hp
                simp [processApk, hgz, hm, hbr, hb, hsc, hsig, hne] at hp
            · have hseq : s = ctx.baseSig := by simpa using hss
              cases hbd : apk.badging with
              | none =>
                refine .inr ⟨?_, ?_⟩
                · rintro ⟨-, -, -, blines, vco, v, hbl, -⟩; rw [hbd] at hbl; cases hbl
                · intro p c hp
                  simp [processApk, hgz, hm, hbr, hb, hsc, hsig, hseq, hbd] at hp
              | some blines =>
                cases hloop : splitBadgeLoop ctx.pkgName (firstLine blines) none with
                | error e =>
                  refine .inr ⟨?_, ?_⟩
                  · rintro ⟨-, -, -, blines2, vco, v, hbl, hlp, -⟩
                    rw [hbd] at hbl
                    injection hbl with h1
                    rw [← h1, hloop] at hlp
                    cases hlp
                  · intro p c hp
                    simp [processApk, hgz, hm, hbr, hb, hsc, hsig, hseq, hbd, hloop] at hp
                | ok vco =>
                  cases hvc : dictGet? st ("versionCode") with
                  | none =>
                    refine .inr ⟨?_, ?_⟩
                    · rintro ⟨-, -, -, blines2, vco2, v, hbl, hlp, hv, -⟩
                      rw [hvc] at hv
                      cases hv
                    · intro p c hp
                      simp [processApk, hgz, hm, hbr, hb, hsc, hsig, hseq, hbd, hloop,
                        hvc] at hp
                  | some v =>
                    by_cases heq : pvalEqPyOpt v vco = true
                    · refine .inl ⟨?_, ?_⟩
                      · refine ⟨⟨gzS, by rw [hgz, hmeq]⟩, ⟨brS, by rw [hbr, hbeq]⟩,
                          by rw [hsig, hseq], blines, vco, v, hbd, hloop, hvc, heq⟩
                      · simp [processApk, hgz, hm, hbr, hb, hsc, hsig, hseq, hbd, hloop, hvc,
                          heq]
                    · refine .inr ⟨?_, ?_⟩
                      · rintro ⟨-, -, -, blines2, vco2, v2, hbl, hlp, hv, he⟩
                        rw [hbd] at hbl
                        injection hbl with h1
                        rw [← h1, hloop] at hlp
                        injection hlp with h2
                        rw [hvc] at hv
                        injection hv with h3
                        exact heq (by rw [h3, h2]; exact he)
                      · have hfq : pvalEqPyOpt v vco = false := by
                          simp only [Bool.not_eq_true] at heq; exact heq
                        intro p c hp
                        simp [processApk, hgz, hm, hbr, hb, hsc, hsig, hseq, hbd, hloop, hvc,
                          hfq] at hp

/-- Claim C10: on a cache miss, the sidecar digest file is written exactly
when the compression-sync, signature-equality and version-code checks all
succeed, and then the write is the last event, after both tool
invocations; when any check fails, no sidecar write happens. -/
theorem claim_C10_sidecar_written_after_validation (ctx : ApkCtx) (st : Dict) (apk : ApkEntry)
    (hsc : apk.sidecar = none) :
    ((∃ p c, Event.writeSidecar p c ∈ (processApk ctx st apk).2) ↔
      splitCacheMissOK ctx st apk) ∧
    (splitCacheMissOK ctx st apk →
      (processApk ctx st apk).2 =
        [Event.callApksigner (apkPathOf ctx apk), Event.callAapt2 (apkPathOf ctx apk),
         Event.writeSidecar (apkPathOf ctx apk ++ (".sha256")) (ctx.hashFn apk.content)]) := by
  rcases processApk_cachemiss_cases ctx st apk hsc with ⟨hok, hevs⟩ | ⟨hnot, hnow⟩
  · refine ⟨⟨fun _ => hok, fun _ => ?_⟩, fun _ => hevs⟩
    exact ⟨apkPathOf ctx apk ++ (".sha256"), ctx.hashFn apk.content, by rw [hevs]; simp⟩
  · exact ⟨⟨fun ⟨p, c, hp⟩ => absurd hp (hnow p c), fun h => absurd h hnot⟩,
      fun h => absurd h hnot⟩

/-! ## Concrete inputs used by witnesses and counterexamples -/

/-- A fixed stand-in for the sha256 content digest. -/
def cHash : List Nat → String := fun _ => ("HH")

/-- A fixed stand-in for the canonical json.dump serialization. -/
def cSer : Int → Dict → String := fun _ _ => ("DOC")

def sigLine (d : String) : String := ("Signer #1 certificate SHA-256 digest: ") ++ d

def wCtx : ApkCtx :=
  { pkgName := ("a"), pkgPath := ("apps/packages/a/1"), baseSig := ("s1"), hashFn := cHash }

/-- A base.apk whose digest sidecar already exists. -/
def wApkCache : ApkEntry :=
  { name := ("base.apk"), mtime := 0, size := 10, gz := some (0, 4), br := some (0, 3),
    sidecar := some ("bh"), sigOutput := some [sigLine ("s1")],
    badging := some [[("versionCode=1")], [("sdkVersion:21")], []], content := [1] }

/-- A base.apk with no sidecar yet (cache miss). -/
def wApkMiss : ApkEntry :=
  { name := ("base.apk"), mtime := 0, size := 10, gz := some (0, 4), br := some (0, 3),
    sidecar := none, sigOutput := some [sigLine ("s1")],
    badging := some [[("versionCode=1")], [("sdkVersion:21")], []], content := [1] }

theorem claim_C4_witness :
    (processApk wCtx (initProps 1) wApkCache).2 = [] ∧
    processApk wCtx (initProps 1) wApkCache =
      processApk wCtx (initProps 1)
        { wApkCache with content := [9], sigOutput := none, badging := none } ∧
    ∀ st2, (processApk wCtx (initProps 1) wApkCache).1 = .ok st2 →
      dictGet? st2 ("apkHashes") = some (.list [.str ("bh")]) := by
  have h := claim_C4_hash_cache_trust wCtx (initProps 1) wApkCache ("bh") rfl
  exact ⟨h.2.1, h.1 [9] none none, fun st2 hok => h.2.2 st2 [] hok rfl⟩

theorem claim_C10_witness :
    (processApk wCtx (initProps 1) wApkMiss).2 =
      [Event.callApksigner ("apps/packages/a/1/base.apk"),
       Event.callAapt2 ("apps/packages/a/1/base.apk"),
       Event.writeSidecar ("apps/packages/a/1/base.apk.sha256") ("HH")] := by
  have hok : splitCacheMissOK wCtx (initProps 1) wApkMiss :=
    ⟨⟨4, rfl⟩, ⟨3, rfl⟩, rfl, [[("versionCode=1")], [("sdkVersion:21")], []], some 1,
      .int 1, rfl, rfl, rfl, rfl⟩
  exact (claim_C10_sidecar_written_after_validation wCtx (initProps 1) wApkMiss rfl).2 hok

/-! ## Common-props is not optional in effect (claim C8) -/

/-- Claim C8 (amended): load_props itself treats a missing common-props
file as an empty property set, but the package walk then unconditionally
reads the "signatures" key from it, so a package directory with no
common-props file makes the run abort with a KeyError on "signatures"
instead of being processed. -/
theorem claim_C8_missing_common_props_aborts (hashFn : List Nat → String) (pd : PackageDir)
    (hcp : pd.commonProps = none) :
    load_props pd.commonProps = [] ∧
    (processPackage hashFn pd).1 = .error (.keyError ("signatures")) := by
  constructor
  · rw [hcp]; rfl
  · have hsig : dictGet? (iconProps pd) ("signatures") = none := by
      rw [iconProps, hcp]
      cases hh : pd.hasIcon
      · rw [if_neg (by simp [hh])]; rfl
      · rw [if_pos (by simp [hh])]; rfl
    simp only [processPackage, hsig]

def pdNoProps : PackageDir :=
  { name := ("a"), commonProps := none, hasIcon := false, versions := [] }

def envNoProps : Env :=
  { compressExit := 0, packages := [pdNoProps], signify := some ("l1\nl2"), now := 0 }

/-- Claim C8 counterexample: a package directory without a common-props
file does not get processed with empty common properties; the whole run
aborts with a KeyError on "signatures". -/
theorem claim_C8_counterexample :
    (run envNoProps cHash cSer).1 = .error (.keyError ("signatures")) ∧
    (run envNoProps cHash cSer).2 = [Event.callCompress] := ⟨rfl, rfl⟩

theorem claim_C8_witness :
    load_props pdNoProps.commonProps = [] ∧
    (processPackage cHash pdNoProps).1 = .error (.keyError ("signatures")) :=
  claim_C8_missing_common_props_aborts cHash pdNoProps rfl

/-! ## Events of the package walk (used by claims C2 and C6):
the walk only ever invokes apksigner and aapt2 and writes sidecars;
it never invokes the compression tool and never writes a manifest. -/

def procEvent : Event → Bool
  | .callApksigner _ => true
  | .callAapt2 _ => true
  | .writeSidecar _ _ => true
  | _ => false

theorem processApk_events_proc (ctx : ApkCtx) (st : Dict) (apk : ApkEntry) :
    ((processApk ctx st apk).2.all procEvent) = true := by
  rw [processApk]
  repeat' split
  all_goals rfl

theorem processApks_events_proc (ctx : ApkCtx) (st : Dict) (l : List ApkEntry) :
    ((processApks ctx st l).2.all procEvent) = true := by
  induction l generalizing st with
  | nil => rfl
  | cons a rest ih =>
    rw [processApks]
    cases hr : processApk ctx st a with
    | mk r evs =>
      have h1 : evs.all procEvent = true := by
        have h := processApk_events_proc ctx st a
        rw [hr] at h
        exact h
      cases r with
      | error e => exact h1
      | ok st2 =>
        show ((evs ++ (processApks ctx st2 rest).2).all procEvent) = true
        rw [List.all_append, h1, ih st2]
        rfl

theorem all_proc_apks_snd (ctx : ApkCtx) (st : Dict) (l : List ApkEntry)
    (p : Except Err Dict × List Event) (h : processApks ctx st l = p) :
    p.2.all procEvent = true := by
  rw [← h]
  exact processApks_events_proc ctx st l

theorem processVersion_events_proc (hashFn : List Nat → String)
    (pkgName containerPath : String) (sigsPV : PVal) (vd : VersionDir) :
    ((processVersion hashFn pkgName containerPath sigsPV vd).2.all procEvent) = true := by
  rw [processVersion]
  cases h1 : pyInt? vd.name with
  | none => rfl
  | some vcode =>
  try dsimp only
  cases h2 : vd.apks.find? (fun a => a.name == ("base.apk")) with
  | none => rfl
  | some base =>
  try dsimp only
  cases h3 : load_signature (containerPath ++ ("/") ++ vd.name ++ ("/base.apk"))
      base.sigOutput with
  | error e => rfl
  | ok baseSig =>
  try dsimp only
  cases h4 : pyIn baseSig sigsPV with
  | error e => rfl
  | ok inSet =>
  try dsimp only
  cases inSet with
  | false => rfl
  | true =>
  rw [if_neg (by decide : ¬((!true) = true))]
  try dsimp only
  cases h5 : base.badging with
  | none => rfl
  | some blines =>
  try dsimp only
  cases h6 : baseBadgeLoop1 pkgName (initProps vcode) (firstLine blines) with
  | error e => rfl
  | ok st1 =>
  try dsimp only
  cases h7 : baseBadgeLoop2 st1 ((blines.drop 1).dropLast) with
  | error e => rfl
  | ok st2 =>
  try dsimp only
  by_cases h8 : (dictGet? st2 ("minSdk")).isNone = true
  · rw [if_pos h8]; rfl
  · rw [if_neg h8]
    cases h9 : dictGet? (mergeProps st2 (load_props vd.props)) ("channel") with
    | none => rfl
    | some chv =>
    try dsimp only
    by_cases h10 : (!(channelNames.any (fun c => pvalEq chv (.str c)))) = true
    · rw [if_pos h10]; rfl
    · rw [if_neg h10]
      cases h11 : msgChecks (mergeProps st2 (load_props vd.props)) with
      | error e => rfl
      | ok u =>
      try dsimp only
      cases h12 : processApks
          { pkgName := pkgName, pkgPath := containerPath ++ ("/") ++ vd.name,
            baseSig := baseSig, hashFn := hashFn }
          (mergeProps st2 (load_props vd.props))
          (sortByKey ApkEntry.name (vd.apks.filter (fun a => pyEndswith a.name (".apk")))) with
      | mk r evs =>
      cases r with
      | error e =>
        try dsimp only
        have hall : evs.all procEvent = true := all_proc_apks_snd _ _ _ _ h12
        rw [List.all_append, hall]
        rfl
      | ok st4 =>
        try dsimp only
        cases h13 : dictGet? st4 ("channel") with
        | none =>
          try dsimp only
          have hall : evs.all procEvent = true := all_proc_apks_snd _ _ _ _ h12
          rw [List.all_append, hall]
          rfl
        | some chv2 =>
          try dsimp only
          by_cases h14 : pvalEq chv2 (.str ("old")) = true
          · rw [if_pos h14]
            try dsimp only
            have hall : evs.all procEvent = true := all_proc_apks_snd _ _ _ _ h12
            rw [List.all_append, hall]
            rfl
          · rw [if_neg h14]
            try dsimp only
            have hall : evs.all procEvent = true := all_proc_apks_snd _ _ _ _ h12
            rw [List.all_append, hall]
            rfl

theorem processVersions_events_proc (hashFn : List Nat → String)
    (pkgName containerPath : String) (sigsPV : PVal) (acc : Dict) (l : List VersionDir) :
    ((processVersions hashFn pkgName containerPath sigsPV acc l).2.all procEvent) = true := by
  induction l generalizing acc with
  | nil => rfl
  | cons vd rest ih =>
    rw [processVersions]
    cases hr : processVersion hashFn pkgName containerPath sigsPV vd with
    | mk r evs =>
      have h1 : evs.all procEvent = true := by
        have h := processVersion_events_proc hashFn pkgName containerPath sigsPV vd
        rw [hr] at h
        exact h
      cases r with
      | error e => exact h1
      | ok opt =>
        cases opt with
        | none =>
          show ((evs ++
            (processVersions hashFn pkgName containerPath sigsPV acc rest).2).all procEvent) =
            true
          rw [List.all_append, h1, ih acc]
          rfl
        | some kv =>
          obtain ⟨k, v⟩ := kv
          show ((evs ++
            (processVersions hashFn pkgName containerPath sigsPV
              (dictSet acc k (.dict v)) rest).2).all procEvent) = true
          rw [List.all_append, h1, ih (dictSet acc k (.dict v))]
          rfl

theorem all_proc_versions_snd (hashFn : List Nat → String)
    (pkgName containerPath : String) (sigsPV : PVal) (acc : Dict) (l : List VersionDir)
    (p : Except Err Dict × List Event)
    (h : processVersions hashFn pkgName containerPath sigsPV acc l = p) :
    p.2.all procEvent = true := by
  rw [← h]
  exact processVersions_events_proc hashFn pkgName containerPath sigsPV acc l

theorem processPackage_events_proc (hashFn : List Nat → String) (pd : PackageDir) :
    ((processPackage hashFn pd).2.all procEvent) = true := by
  rw [processPackage]
  cases h1 : dictGet? (iconProps pd) ("signatures") with
  | none => rfl
  | some sigsPV =>
  try dsimp only
  cases h2 : processVersions hashFn pd.name (("apps/packages/") ++ pd.name) sigsPV []
      (sortByKey VersionDir.name pd.versions) with
  | mk r evs =>
  cases r with
  | error e => exact all_proc_versions_snd _ _ _ _ _ _ _ h2
  | ok variants =>
    try dsimp only
    exact all_proc_versions_snd _ _ _ _ _ _ _ h2

theorem processPackages_events_proc (hashFn : List Nat → String) (acc : Dict)
    (l : List PackageDir) :
    ((processPackages hashFn acc l).2.all procEvent) = true := by
  induction l generalizing acc with
  | nil => rfl
  | cons pd rest ih =>
    rw [processPackages]
    cases hr : processPackage hashFn pd with
    | mk r evs =>
      have h1 : evs.all procEvent = true := by
        have h := processPackage_events_proc hashFn pd
        rw [hr] at h
        exact h
      cases r with
      | error e => exact h1
      | ok kv =>
        obtain ⟨k, v⟩ := kv
        show ((evs ++ (processPackages hashFn (dictSet acc k v) rest).2).all procEvent) = true
        rw [List.all_append, h1, ih (dictSet acc k v)]
        rfl

theorem not_mem_of_all_proc {evs : List Event} (h : evs.all procEvent = true) (ev : Event)
    (hev : procEvent ev = false) : ev ∉ evs := by
  intro hm
  have := List.all_eq_true.mp h ev hm
  rw [hev] at this
  cases this

/-! ## Compression is invoked (claim C2) and failure atomicity (claim C6) -/

def wVd : VersionDir :=
  { name := ("1"), apks := [wApkCache], props := some [(("channel"), .str ("stable"))] }

def wPd : PackageDir :=
  { name := ("a"), commonProps := some [(("signatures"), .list [.str ("s1")])],
    hasIcon := false, versions := [wVd] }

/-- A fully valid input world: the run emits the manifest. -/
def wEnvOk : Env :=
  { compressExit := 0, packages := [wPd], signify := some ("l1\nl2"), now := 7 }

/-- The same world except that the signing tool fails. -/
def envSigFail : Env :=
  { compressExit := 0, packages := [wPd], signify := none, now := 7 }

/-- A world where the compression tool exits nonzero. -/
def envCompressFail : Env :=
  { compressExit := 1, packages := [], signify := none, now := 0 }

/-- Claim C2 counterexample: even on a fully valid input (the run
succeeds), the program does invoke the compression tool: the very first
recorded action of the run is the compress-apks invocation (line 37 of
the source runs subprocess.call on it and asserts a zero exit). -/
theorem claim_C2_counterexample :
    (run wEnvOk cHash cSer).1.isOk = true ∧
    (run wEnvOk cHash cSer).2.head? = some Event.callCompress := ⟨rfl, rfl⟩

/-- Claim C2 (amended): the program invokes the compression tool exactly
once per run, as its very first action, and aborts (with nothing else
done) when it exits nonzero; the rest of the run never invokes it again
and only verifies the timestamps of the pre-existing companions. -/
theorem claim_C2_compression_invoked_once_first (env : Env) (hashFn : List Nat → String)
    (serializeFn : Int → Dict → String) :
    (∃ rest, (run env hashFn serializeFn).2 = Event.callCompress :: rest ∧
      Event.callCompress ∉ rest) ∧
    (env.compressExit ≠ 0 →
      run env hashFn serializeFn = (.error .assertFail, [Event.callCompress])) := by
  rw [run]
  by_cases hc : (env.compressExit != 0) = true
  · rw [if_pos hc]
    exact ⟨⟨[], rfl, by simp⟩, fun _ => rfl⟩
  · rw [if_neg hc]
    have hzero : env.compressExit = 0 := by simpa using hc
    refine ⟨?_, fun hnz => absurd hzero hnz⟩
    cases hp : processPackages hashFn [] (sortByKey PackageDir.name env.packages) with
    | mk r evs =>
      have hall : evs.all procEvent = true := by
        have h := processPackages_events_proc hashFn [] (sortByKey PackageDir.name env.packages)
        rw [hp] at h
        exact h
      have hnc : Event.callCompress ∉ evs :=
        not_mem_of_all_proc hall Event.callCompress rfl
      cases r with
      | error e => exact ⟨evs, rfl, hnc⟩
      | ok pkgs =>
        try dsimp only
        cases hs : env.signify with
        | none =>
          refine ⟨evs ++ [Event.writeJson (serializeFn env.now pkgs), Event.callSignify],
            rfl, ?_⟩
          intro hmem
          rcases List.mem_append.mp hmem with h | h
          · exact hnc h
          · simp at h
        | some sigFile =>
          try dsimp only
          cases hidx : pyIdx (pySplitlines sigFile) 1 with
          | error e =>
            refine ⟨evs ++ [Event.writeJson (serializeFn env.now pkgs), Event.callSignify],
              rfl, ?_⟩
            intro hmem
            rcases List.mem_append.mp hmem with h | h
            · exact hnc h
            · simp at h
          | ok sig =>
            refine ⟨evs ++ [Event.writeJson (serializeFn env.now pkgs), Event.callSignify] ++
              [Event.writeSjson (serializeFn env.now pkgs ++ ("\n") ++ sig ++ ("\n"))],
              rfl, ?_⟩
            intro hmem
            rcases List.mem_append.mp hmem with h | h
            · rcases List.mem_append.mp h with h2 | h2
              · exact hnc h2
              · simp at h2
            · simp at h

theorem claim_C2_witness :
    (∃ rest, (run envCompressFail cHash cSer).2 = Event.callCompress :: rest ∧
      Event.callCompress ∉ rest) ∧
    run envCompressFail cHash cSer = (.error .assertFail, [Event.callCompress]) := by
  have h := claim_C2_compression_invoked_once_first envCompressFail cHash cSer
  exact ⟨h.1, h.2 (by decide)⟩

/-- Claim C6 counterexample: when every validation succeeds but the
external signing tool fails, the run aborts with a fatal error even
though the canonical manifest file has already been written, so it is not
the case that no manifest file is written on every fatal failure. -/
theorem claim_C6_counterexample :
    (run envSigFail cHash cSer).1 = .error (.toolFail ("signify")) ∧
    (run envSigFail cHash cSer).2 =
      [Event.callCompress, Event.callApksigner ("apps/packages/a/1/base.apk"),
       Event.callAapt2 ("apps/packages/a/1/base.apk"), Event.writeJson ("DOC"),
       Event.callSignify] ∧
    Event.writeJson ("DOC") ∈ (run envSigFail cHash cSer).2 := by
  refine ⟨rfl, rfl, ?_⟩
  have hevs : (run envSigFail cHash cSer).2 =
      [Event.callCompress, Event.callApksigner ("apps/packages/a/1/base.apk"),
       Event.callAapt2 ("apps/packages/a/1/base.apk"), Event.writeJson ("DOC"),
       Event.callSignify] := rfl
  rw [hevs]
  exact List.mem_cons.mpr (.inr (List.mem_cons.mpr (.inr (List.mem_cons.mpr
    (.inr (List.mem_cons.mpr (.inl rfl)))))))

/-- Claim C6 (amended): when the run aborts with an error, the signed
secondary file is never written, and the canonical manifest file has been
written only when the failure happened at the signing step (signing tool
failure, or a malformed detached-signature file lacking a second line);
any validation failure in the package walk writes neither file. -/
theorem claim_C6_failure_leaves_no_manifest (env : Env) (hashFn : List Nat → String)
    (serializeFn : Int → Dict → String) (e : Err) (evs : List Event)
    (hrun : run env hashFn serializeFn = (.error e, evs)) :
    (∀ c, Event.writeSjson c ∉ evs) ∧
    (∀ c, Event.writeJson c ∈ evs → e = .toolFail ("signify") ∨ e = .indexError) := by
  rw [run] at hrun
  by_cases hc : (env.compressExit != 0) = true
  · rw [if_pos hc] at hrun
    injection hrun with h1 h2
    subst h2
    constructor
    · intro c hmem
      simp at hmem
    · intro c hmem
      simp at hmem
  · rw [if_neg hc] at hrun
    cases hp : processPackages hashFn [] (sortByKey PackageDir.name env.packages) with
    | mk r evs2 =>
      rw [hp] at hrun
      have hall : evs2.all procEvent = true := by
        have h := processPackages_events_proc hashFn [] (sortByKey PackageDir.name env.packages)
        rw [hp] at h
        exact h
      cases r with
      | error e2 =>
        injection hrun with h1 h2
        subst h2
        constructor
        · intro c hmem
          rcases List.mem_cons.mp hmem with h | h
          · cases h
          · exact not_mem_of_all_proc hall (Event.writeSjson c) rfl h
        · intro c hmem
          rcases List.mem_cons.mp hmem with h | h
          · cases h
          · exact absurd h (not_mem_of_all_proc hall (Event.writeJson c) rfl)
      | ok pkgs =>
        try dsimp only at hrun
        cases hs : env.signify with
        | none =>
          rw [hs] at hrun
          try dsimp only at hrun
          injection hrun with h1 h2
          injection h1 with h1
          subst h2
          constructor
          · intro c hmem
            rcases List.mem_append.mp hmem with h | h
            · rcases List.mem_cons.mp h with h2 | h2
              · cases h2
              · exact not_mem_of_all_proc hall (Event.writeSjson c) rfl h2
            · simp at h
          · intro c hmem
            exact .inl h1.symm
        | some sigFile =>
          rw [hs] at hrun
          try dsimp only at hrun
          cases hidx : pyIdx (pySplitlines sigFile) 1 with
          | error e3 =>
            rw [hidx] at hrun
            try dsimp only at hrun
            have he3 : e3 = .indexError := by
              rw [pyIdx] at hidx
              cases hg : (pySplitlines sigFile).get? 1 with
              | none => rw [hg] at hidx; injection hidx with h; exact h.symm
              | some a => rw [hg] at hidx; cases hidx
            injection hrun with h1 h2
            injection h1 with h1
            subst h2
            constructor
            · intro c hmem
              rcases List.mem_append.mp hmem with h | h
              · rcases List.mem_cons.mp h with h2 | h2
                · cases h2
                · exact not_mem_of_all_proc hall (Event.writeSjson c) rfl h2
              · simp at h
            · intro c hmem
              exact .inr (by rw [← h1, he3])
          | ok sig =>
            rw [hidx] at hrun
            try dsimp only at hrun
            cases hrun

/-! ## Layout of the signed secondary file (claim C9) -/

/-- Claim C9: on a successful run, the secondary signed file that gets
written equals the canonical serialized document, a newline, the second
line of the detached signature file (index 1 of splitlines), and a
trailing newline; the write is the last action of the run, after the
canonical document itself was written unchanged. -/
theorem claim_C9_sjson_layout (env : Env) (hashFn : List Nat → String)
    (serializeFn : Int → Dict → String) (t : Int) (pkgs : Dict) (evs : List Event)
    (hrun : run env hashFn serializeFn = (.ok (t, pkgs), evs)) :
    ∃ sigFile sig, env.signify = some sigFile ∧
      pyIdx (pySplitlines sigFile) 1 = .ok sig ∧
      Event.writeJson (serializeFn env.now pkgs) ∈ evs ∧
      evs.getLast? = some (Event.writeSjson
        (serializeFn env.now pkgs ++ ("\n") ++ sig ++ ("\n"))) := by
  rw [run] at hrun
  by_cases hc : (env.compressExit != 0) = true
  · rw [if_pos hc] at hrun
    cases hrun
  · rw [if_neg hc] at hrun
    cases hp : processPackages hashFn [] (sortByKey PackageDir.name env.packages) with
    | mk r evs2 =>
      rw [hp] at hrun
      cases r with
      | error e => cases hrun
      | ok pkgs2 =>
        try dsimp only at hrun
        cases hs : env.signify with
        | none => rw [hs] at hrun; cases hrun
        | some sigFile =>
          rw [hs] at hrun
          try dsimp only at hrun
          cases hidx : pyIdx (pySplitlines sigFile) 1 with
          | error e => rw [hidx] at hrun; cases hrun
          | ok sig =>
            rw [hidx] at hrun
            try dsimp only at hrun
            injection hrun with h1 h2
            injection h1 with h1
            injection h1 with ht hpk
            subst ht
            subst hpk
            subst h2
            refine ⟨sigFile, sig, rfl, hidx, ?_, ?_⟩
            · simp [List.mem_append]
            · rw [List.getLast?_concat]

def wVariantOk : Dict :=
  [(("versionCode"), .int 1), (("apks"), .list [.str ("base.apk")]),
   (("apkHashes"), .list [.str ("bh")]), (("apkSizes"), .list [.int 10]),
   (("apkGzSizes"), .list [.int 4]), (("apkBrSizes"), .list [.int 3]),
   (("minSdk"), .int 21), (("channel"), .str ("stable"))]

def wPkgsOk : Dict :=
  [(("a"), .dict [(("signatures"), .list [.str ("s1")]),
    (("variants"), .dict [(("1"), .dict wVariantOk)])])]

def wEvsOk : List Event :=
  [Event.callCompress, Event.callApksigner ("apps/packages/a/1/base.apk"),
   Event.callAapt2 ("apps/packages/a/1/base.apk"), Event.writeJson ("DOC"),
   Event.callSignify, Event.writeSjson ("DOC\nl2\n")]

theorem claim_C9_witness :
    ∃ sigFile sig, wEnvOk.signify = some sigFile ∧
      pyIdx (pySplitlines sigFile) 1 = .ok sig ∧
      Event.writeJson (cSer wEnvOk.now wPkgsOk) ∈ wEvsOk ∧
      wEvsOk.getLast? = some (Event.writeSjson
        (cSer wEnvOk.now wPkgsOk ++ ("\n") ++ sig ++ ("\n"))) :=
  claim_C9_sjson_layout wEnvOk cHash cSer 7 wPkgsOk wEvsOk rfl

theorem claim_C6_witness :
    Event.writeSjson ("DOC") ∉ (run envSigFail cHash cSer).2 ∧
    (Event.writeJson ("DOC") ∈ (run envSigFail cHash cSer).2 →
      Err.toolFail ("signify") = Err.toolFail ("signify") ∨
      Err.toolFail ("signify") = Err.indexError) := by
  have h := claim_C6_failure_leaves_no_manifest envSigFail cHash cSer (.toolFail ("signify"))
      ((run envSigFail cHash cSer).2) rfl
  exact ⟨h.1 ("DOC"), h.2 ("DOC")⟩

/-! ## Machinery for the signature / version-code invariants
(claims C1, C3, C5) -/

theorem mem_insByKey (nm : α → String) (x a : α) (l : List α) :
    x ∈ insByKey nm a l ↔ x = a ∨ x ∈ l := by
  induction l with
  | nil => simp [insByKey]
  | cons b bs ih =>
    rw [insByKey]
    by_cases hc : pyStrLe (nm a) (nm b) = true
    · rw [if_pos hc]
      simp
    · rw [if_neg hc]
      simp only [List.mem_cons, ih]
      constructor
      · rintro (h | h | h)
        · exact .inr (.inl h)
        · exact .inl h
        · exact .inr (.inr h)
      · rintro (h | h | h)
        · exact .inr (.inl h)
        · exact .inl h
        · exact .inr (.inr h)

theorem mem_sortByKey (nm : α → String) (x : α) (l : List α) :
    x ∈ sortByKey nm l ↔ x ∈ l := by
  induction l with
  | nil => simp [sortByKey]
  | cons b bs ih =>
    rw [sortByKey, List.foldr_cons, mem_insByKey]
    rw [sortByKey] at ih
    rw [ih]
    simp

theorem mem_dictSet (d : Dict) (k : String) (v : PVal) (p : String × PVal)
    (h : p ∈ dictSet d k v) : p ∈ d ∨ p = (k, v) := by
  rw [dictSet] at h
  by_cases ha : d.any (fun q => q.1 == k) = true
  · rw [if_pos ha] at h
    rcases List.mem_map.mp h with ⟨q, hq, hfq⟩
    by_cases hqk : (q.1 == k) = true
    · rw [if_pos hqk] at hfq
      exact .inr hfq.symm
    · rw [if_neg hqk] at hfq
      exact .inl (hfq ▸ hq)
  · rw [if_neg ha] at h
    rcases List.mem_append.mp h with h | h
    · exact .inl h
    · exact .inr (by simpa using h)

theorem dictGet?_mem (d : Dict) (k : String) (v : PVal) (h : dictGet? d k = some v) :
    (k, v) ∈ d := by
  rw [dictGet?] at h
  cases hf : d.find? (fun p => p.1 == k) with
  | none => rw [hf] at h; cases h
  | some p =>
    rw [hf] at h
    injection h with h
    have hm := List.mem_of_find?_eq_some hf
    have hk : p.1 = k := by simpa using List.find?_some hf
    have : p = (k, v) := by
      cases p
      simp only at hk h
      rw [hk, h]
    exact this ▸ hm

/-- The value at key k after layering the override pairs on top of a base
value (mirrors what the dictSet fold of mergeProps does to one key). -/
def mergedGet (over : Dict) (k : String) (base : Option PVal) : Option PVal :=
  over.foldl (fun acc p => if p.1 == k then some p.2 else acc) base

theorem mergeProps_get (over : Dict) (st : Dict) (k : String) :
    dictGet? (mergeProps st over) k = mergedGet over k (dictGet? st k) := by
  induction over generalizing st with
  | nil => rfl
  | cons p rest ih =>
    obtain ⟨k2, v2⟩ := p
    rw [mergeProps, List.foldl_cons]
    rw [show List.foldl (fun d p => dictSet d p.1 p.2) (dictSet st k2 v2) rest =
      mergeProps (dictSet st k2 v2) rest from rfl]
    rw [ih]
    have hstep : mergedGet ((k2, v2) :: rest) k (dictGet? st k) =
        mergedGet rest k (if (k2 == k) = true then some v2 else dictGet? st k) := rfl
    rw [hstep]
    by_cases hk : (k2 == k) = true
    · have hk2 : k2 = k := by simpa using hk
      subst hk2
      rw [dictGet?_set_self, if_pos hk]
    · rw [dictGet?_set_ne st k2 k v2 (by
        simp only [beq_eq_false_iff_ne] at hk ⊢
        exact fun e => (hk (by simpa using e.symm) : False))]
      rw [if_neg hk]

theorem mergedGet_isSome (over : Dict) (k : String) (b : PVal) :
    ∃ v, mergedGet over k (some b) = some v := by
  induction over generalizing b with
  | nil => exact ⟨b, rfl⟩
  | cons p rest ih =>
    rw [mergedGet, List.foldl_cons]
    by_cases hk : (p.1 == k) = true
    · rw [if_pos hk]
      exact ih p.2
    · rw [if_neg hk]
      exact ih b

theorem pvalEq_int_iff (a b : Int) : pvalEq (.int a) (.int b) = true ↔ a = b := by
  rw [pvalEq]
  exact beq_iff_eq

/-- Every validation that processApk performs on one artifact, as a
function of the versionCode value held in pkg_props when the artifact is
processed: compression companions in sync always; on a cache miss also
the signature equality with the primary and the badging version code. -/
def apkNecc (ctx : ApkCtx) (vcv : PVal) (apk : ApkEntry) : Prop :=
  (∃ gzS, apk.gz = some (apk.mtime, gzS)) ∧ (∃ brS, apk.br = some (apk.mtime, brS)) ∧
  (apk.sidecar = none →
    load_signature (apkPathOf ctx apk) apk.sigOutput = .ok ctx.baseSig ∧
    ∃ blines n, apk.badging = some blines ∧
      splitBadgeLoop ctx.pkgName (firstLine blines) none = .ok (some n) ∧
      pvalEq vcv (.int n) = true)

/-- A successful processApk implies all its validations passed, and the
versionCode key of pkg_props is unchanged. -/
theorem processApk_ok_necc (ctx : ApkCtx) (st : Dict) (apk : ApkEntry) (st2 : Dict)
    (evs : List Event) (h : processApk ctx st apk = (.ok st2, evs)) (vcv : PVal)
    (hv : dictGet? st ("versionCode") = some vcv) :
    apkNecc ctx vcv apk ∧ dictGet? st2 ("versionCode") = some vcv := by
  rw [processApk] at h
  cases hgz : apk.gz with
  | none => rw [hgz] at h; cases h
  | some g =>
    obtain ⟨gzM, gzS⟩ := g
    rw [hgz] at h
    try dsimp only at h
    by_cases hm : (apk.mtime != gzM) = true
    · rw [if_pos hm] at h; cases h
    · rw [if_neg hm] at h
      have hmeq : apk.mtime = gzM := by simpa using hm
      cases hbr : apk.br with
      | none => rw [hbr] at h; cases h
      | some b =>
        obtain ⟨brM, brS⟩ := b
        rw [hbr] at h
        try dsimp only at h
        by_cases hb : (apk.mtime != brM) = true
        · rw [if_pos hb] at h; cases h
        · rw [if_neg hb] at h
          have hbeq : apk.mtime = brM := by simpa using hb
          cases hsc : apk.sidecar with
          | some d =>
            rw [hsc] at h
            try dsimp only at h
            injection h with h1 h2
            refine ⟨⟨⟨gzS, by rw [hgz, hmeq]⟩, ⟨brS, by rw [hbr, hbeq]⟩,
              fun hnone => by rw [hsc] at hnone; cases hnone⟩, ?_⟩
            rw [appendSizes_get_other st apk d gzS brS st2 ("versionCode") h1
              (by decide) (by decide) (by decide) (by decide) (by decide)]
            exact hv
          | none =>
            rw [hsc] at h
            try dsimp only at h
            cases hsig : load_signature (apkPathOf ctx apk) apk.sigOutput with
            | error e => rw [hsig] at h; cases h
            | ok s =>
              rw [hsig] at h
              try dsimp only at h
              by_cases hss : (s != ctx.baseSig) = true
              · rw [if_pos hss] at h; cases h
              · rw [if_neg hss] at h
                have hseq : s = ctx.baseSig := by simpa using hss
                cases hbd : apk.badging with
                | none => rw [hbd] at h; cases h
                | some blines =>
                  rw [hbd] at h
                  try dsimp only at h
                  cases hloop : splitBadgeLoop ctx.pkgName (firstLine blines) none with
                  | error e => rw [hloop] at h; cases h
                  | ok vco =>
                    rw [hloop] at h
                    try dsimp only at h
                    rw [hv] at h
                    try dsimp only at h
                    by_cases heq : pvalEqPyOpt vcv vco = false
                    · rw [if_pos heq] at h; cases h
                    · rw [if_neg heq] at h
                      have heqt : pvalEqPyOpt vcv vco = true := by
                        cases hp : pvalEqPyOpt vcv vco
                        · exact absurd hp heq
                        · rfl
                      cases vco with
                      | none => rw [pvalEqPyOpt] at heqt; cases heqt
                      | some n =>
                        injection h with h1 h2
                        refine ⟨⟨⟨gzS, by rw [hgz, hmeq]⟩, ⟨brS, by rw [hbr, hbeq]⟩,
                          fun _ => ⟨by rw [hsig, hseq], blines, n, hbd, hloop, heqt⟩⟩, ?_⟩
                        rw [appendSizes_get_other st apk (ctx.hashFn apk.content) gzS brS st2
                          ("versionCode") h1
                          (by decide) (by decide) (by decide) (by decide) (by decide)]
                        exact hv

/-- Fold version of processApk_ok_necc over the artifact loop. -/
theorem processApks_ok_necc (ctx : ApkCtx) (l : List ApkEntry) (st st2 : Dict)
    (evs : List Event) (h : processApks ctx st l = (.ok st2, evs)) (vcv : PVal)
    (hv : dictGet? st ("versionCode") = some vcv) :
    (∀ a ∈ l, apkNecc ctx vcv a) ∧ dictGet? st2 ("versionCode") = some vcv := by
  induction l generalizing st evs with
  | nil =>
    rw [processApks] at h
    injection h with h1 h2
    injection h1 with h1
    subst h1
    exact ⟨by simp, hv⟩
  | cons a rest ih =>
    rw [processApks] at h
    cases hr : processApk ctx st a with
    | mk r evsa =>
      rw [hr] at h
      cases r with
      | error e => cases h
      | ok stm =>
        try dsimp only at h
        cases hrest : processApks ctx stm rest with
        | mk r2 evs2 =>
          rw [hrest] at h
          try dsimp only at h
          injection h with h1 h2
          subst h1
          obtain ⟨ha, hm⟩ := processApk_ok_necc ctx st a stm evsa hr vcv hv
          obtain ⟨hrest2, hm2⟩ := ih stm evs2 hrest hm
          refine ⟨?_, hm2⟩
          intro x hx
          rcases List.mem_cons.mp hx with rfl | hx
          · exact ha
          · exact hrest2 x hx

/-- A successful first-line badging loop of the primary artifact implies
that every versionCode token it saw agrees with the versionCode value of
pkg_props, which it leaves unchanged. -/
theorem baseBadgeLoop1_necc (pkgName : String) (l : List String) (st st1 : Dict)
    (h : baseBadgeLoop1 pkgName st l = .ok st1) (vcv : PVal)
    (hv : dictGet? st ("versionCode") = some vcv) :
    (∀ kv ∈ l, pyStartswith kv ("versionName") = false →
      pyStartswith kv ("versionCode") = true →
      ∃ s n, pyIdx (pySplit kv ("=")) 1 = .ok s ∧ pyInt? s = some n ∧
        pvalEq vcv (.int n) = true) ∧
    dictGet? st1 ("versionCode") = some vcv := by
  induction l generalizing st with
  | nil =>
    rw [baseBadgeLoop1] at h
    injection h with h1
    subst h1
    exact ⟨by simp, hv⟩
  | cons kv rest ih =>
    rw [baseBadgeLoop1] at h
    by_cases hvn : pyStartswith kv ("versionName") = true
    · rw [if_pos hvn] at h
      cases hidx : pyIdx (pySplit kv ("=")) 1 with
      | error e => rw [hidx] at h; cases h
      | ok s0 =>
        rw [hidx] at h
        try dsimp only at h
        have hv2 : dictGet? (dictSet st ("versionName") (.str s0)) ("versionCode") =
            some vcv := by
          rw [dictGet?_set_ne st ("versionName") ("versionCode") (.str s0) (by decide)]
          exact hv
        obtain ⟨hkvs, hfin⟩ := ih (dictSet st ("versionName") (.str s0)) h hv2
        refine ⟨?_, hfin⟩
        intro kv2 hm hf ht
        rcases List.mem_cons.mp hm with rfl | hm
        · exact absurd hvn (by rw [hf]; exact Bool.false_ne_true)
        · exact hkvs kv2 hm hf ht
    · rw [if_neg hvn] at h
      have hvnf : pyStartswith kv ("versionName") = false := by
        cases hx : pyStartswith kv ("versionName")
        · rfl
        · exact absurd hx hvn
      by_cases hvc : pyStartswith kv ("versionCode") = true
      · rw [if_pos hvc] at h
        rw [hv] at h
        try dsimp only at h
        cases hidx : pyIdx (pySplit kv ("=")) 1 with
        | error e => rw [hidx] at h; cases h
        | ok s0 =>
          rw [hidx] at h
          try dsimp only at h
          cases hint : pyInt? s0 with
          | none => rw [hint] at h; cases h
          | some n =>
            rw [hint] at h
            try dsimp only at h
            by_cases hpe : pvalEq vcv (.int n) = true
            · rw [if_pos hpe] at h
              obtain ⟨hkvs, hfin⟩ := ih st h hv
              refine ⟨?_, hfin⟩
              intro kv2 hm hf ht
              rcases List.mem_cons.mp hm with rfl | hm
              · exact ⟨s0, n, hidx, hint, hpe⟩
              · exact hkvs kv2 hm hf ht
            · rw [if_neg hpe] at h; cases h
      · rw [if_neg hvc] at h
        have hvcf : pyStartswith kv ("versionCode") = false := by
          cases hx : pyStartswith kv ("versionCode")
          · rfl
          · exact absurd hx hvc
        by_cases hnm : pyStartswith kv ("name") = true
        · rw [if_pos hnm] at h
          cases hidx : pyIdx (pySplit kv ("=")) 1 with
          | error e => rw [hidx] at h; cases h
          | ok s0 =>
            rw [hidx] at h
            try dsimp only at h
            by_cases heq : (pkgName == s0) = true
            · rw [if_pos heq] at h
              obtain ⟨hkvs, hfin⟩ := ih st h hv
              refine ⟨?_, hfin⟩
              intro kv2 hm hf ht
              rcases List.mem_cons.mp hm with rfl | hm
              · exact absurd ht (by rw [hvcf]; exact Bool.false_ne_true)
              · exact hkvs kv2 hm hf ht
            · rw [if_neg heq] at h; cases h
        · rw [if_neg hnm] at h
          obtain ⟨hkvs, hfin⟩ := ih st h hv
          refine ⟨?_, hfin⟩
          intro kv2 hm hf ht
          rcases List.mem_cons.mp hm with rfl | hm
          · exact absurd ht (by rw [hvcf]; exact Bool.false_ne_true)
          · exact hkvs kv2 hm hf ht

/-- The remaining badging lines of the primary artifact never touch the
versionCode key. -/
theorem baseBadgeLoop2_vc (l : List (List String)) (st st2 : Dict)
    (h : baseBadgeLoop2 st l = .ok st2) (vcv : PVal)
    (hv : dictGet? st ("versionCode") = some vcv) :
    dictGet? st2 ("versionCode") = some vcv := by
  induction l generalizing st with
  | nil =>
    rw [baseBadgeLoop2] at h
    injection h with h1
    subst h1
    exact hv
  | cons kv rest ih =>
    rw [baseBadgeLoop2] at h
    cases hidx : pyIdx kv 0 with
    | error e => rw [hidx] at h; cases h
    | ok k0 =>
      rw [hidx] at h
      try dsimp only at h
      by_cases hal : pyStartswith k0 ("application-label:") = true
      · rw [if_pos hal] at h
        cases hidx2 : pyIdx (pySplit k0 (":")) 1 with
        | error e => rw [hidx2] at h; cases h
        | ok s0 =>
          rw [hidx2] at h
          try dsimp only at h
          refine ih (dictSet st ("label") (.str s0)) h ?_
          rw [dictGet?_set_ne st ("label") ("versionCode") (.str s0) (by decide)]
          exact hv
      · rw [if_neg hal] at h
        by_cases hsv : pyStartswith k0 ("sdkVersion") = true
        · rw [if_pos hsv] at h
          cases hidx2 : pyIdx (pySplit k0 (":")) 1 with
          | error e => rw [hidx2] at h; cases h
          | ok s0 =>
            rw [hidx2] at h
            try dsimp only at h
            cases hint : pyInt? s0 with
            | none => rw [hint] at h; cases h
            | some n =>
              rw [hint] at h
              try dsimp only at h
              refine ih (dictSet st ("minSdk") (.int n)) h ?_
              rw [dictGet?_set_ne st ("minSdk") ("versionCode") (.int n) (by decide)]
              exact hv
        · rw [if_neg hsv] at h
          by_cases hnc : pyStartswith k0 ("native-code") = true
          · rw [if_pos hnc] at h
            cases hidx2 : pyIdx kv 1 with
            | error e => rw [hidx2] at h; cases h
            | ok abi =>
              rw [hidx2] at h
              try dsimp only at h
              by_cases habi :
                  ([("arm64-v8a"), ("x86_64"), ("armeabi-v7a"), ("x86")].contains abi) = true
              · rw [if_pos habi] at h
                cases hga : dictGet? st ("abis") with
                | some v => rw [hga] at h; cases h
                | none =>
                  rw [hga] at h
                  try dsimp only at h
                  refine ih (dictSet st ("abis") (.list [.str abi])) h ?_
                  rw [dictGet?_set_ne st ("abis") ("versionCode") (.list [.str abi])
                    (by decide)]
                  exact hv
              · rw [if_neg habi] at h; cases h
          · rw [if_neg hnc] at h
            exact ih st h hv

/-- A successful processVersion implies every validation of the version
passed: primary artifact present, its signature trusted, its badging
versionCode tokens equal to the directory-derived version code, and every
artifact of the loop satisfying apkNecc with respect to the effective
(possibly overridden) versionCode; moreover a published variant record
carries a channel other than old. -/
theorem processVersion_ok_necc (hashFn : List Nat → String)
    (pkgName containerPath : String) (sigsPV : PVal) (vd : VersionDir)
    (res : Option (String × Dict)) (evs : List Event)
    (h : processVersion hashFn pkgName containerPath sigsPV vd = (.ok res, evs)) :
    ∃ vcode base baseSig,
      pyInt? vd.name = some vcode ∧
      vd.apks.find? (fun a => a.name == ("base.apk")) = some base ∧
      load_signature (containerPath ++ ("/") ++ vd.name ++ ("/base.apk"))
        base.sigOutput = .ok baseSig ∧
      pyIn baseSig sigsPV = .ok true ∧
      (∃ blines, base.badging = some blines ∧
        ∀ kv ∈ firstLine blines, pyStartswith kv ("versionName") = false →
          pyStartswith kv ("versionCode") = true →
          ∃ s n, pyIdx (pySplit kv ("=")) 1 = .ok s ∧ pyInt? s = some n ∧ n = vcode) ∧
      (∃ vcv, mergedGet (load_props vd.props) ("versionCode") (some (.int vcode)) =
          some vcv ∧
        ∀ a ∈ vd.apks, pyEndswith a.name (".apk") = true →
          apkNecc (ApkCtx.mk pkgName (containerPath ++ ("/") ++ vd.name) baseSig hashFn)
            vcv a) ∧
      (∀ k v, res = some (k, v) →
        ∃ ch, dictGet? v ("channel") = some ch ∧ pvalEq ch (.str ("old")) = false) := by
  rw [processVersion] at h
  cases h1 : pyInt? vd.name with
  | none => rw [h1] at h; cases h
  | some vcode =>
  rw [h1] at h
  try dsimp only at h
  cases h2 : vd.apks.find? (fun a => a.name == ("base.apk")) with
  | none => rw [h2] at h; cases h
  | some base =>
  rw [h2] at h
  try dsimp only at h
  cases h3 : load_signature (containerPath ++ ("/") ++ vd.name ++ ("/base.apk"))
      base.sigOutput with
  | error e => rw [h3] at h; cases h
  | ok baseSig =>
  rw [h3] at h
  try dsimp only at h
  cases h4 : pyIn baseSig sigsPV with
  | error e => rw [h4] at h; cases h
  | ok inSet =>
  rw [h4] at h
  try dsimp only at h
  cases inSet with
  | false => rw [if_pos (by decide : ((!false) = true))] at h; cases h
  | true =>
  rw [if_neg (by decide : ¬((!true) = true))] at h
  cases h5 : base.badging with
  | none => rw [h5] at h; cases h
  | some blines =>
  rw [h5] at h
  try dsimp only at h
  cases h6 : baseBadgeLoop1 pkgName (initProps vcode) (firstLine blines) with
  | error e => rw [h6] at h; cases h
  | ok st1 =>
  rw [h6] at h
  try dsimp only at h
  cases h7 : baseBadgeLoop2 st1 ((blines.drop 1).dropLast) with
  | error e => rw [h7] at h; cases h
  | ok st2 =>
  rw [h7] at h
  try dsimp only at h
  by_cases h8 : (dictGet? st2 ("minSdk")).isNone = true
  · rw [if_pos h8] at h; cases h
  · rw [if_neg h8] at h
    cases h9 : dictGet? (mergeProps st2 (load_props vd.props)) ("channel") with
    | none => rw [h9] at h; cases h
    | some chv =>
    rw [h9] at h
    try dsimp only at h
    by_cases h10 : (!(channelNames.any (fun c => pvalEq chv (.str c)))) = true
    · rw [if_pos h10] at h; cases h
    · rw [if_neg h10] at h
      cases h11 : msgChecks (mergeProps st2 (load_props vd.props)) with
      | error e => rw [h11] at h; cases h
      | ok u =>
      rw [h11] at h
      try dsimp only at h
      cases h12 : processApks
          { pkgName := pkgName, pkgPath := containerPath ++ ("/") ++ vd.name,
            baseSig := baseSig, hashFn := hashFn }
          (mergeProps st2 (load_props vd.props))
          (sortByKey ApkEntry.name (vd.apks.filter (fun a => pyEndswith a.name (".apk")))) with
      | mk r evsa =>
      rw [h12] at h
      cases r with
      | error e => cases h
      | ok st4 =>
      try dsimp only at h
      have hinit : dictGet? (initProps vcode) ("versionCode") = some (.int vcode) := rfl
      obtain ⟨hkvs, hst1⟩ :=
        baseBadgeLoop1_necc pkgName (firstLine blines) (initProps vcode) st1 h6
          (.int vcode) hinit
      have hst2 := baseBadgeLoop2_vc ((blines.drop 1).dropLast) st1 st2 h7 (.int vcode) hst1
      have hmg := mergeProps_get (load_props vd.props) st2 ("versionCode")
      rw [hst2] at hmg
      obtain ⟨vcv, hvcv0⟩ := mergedGet_isSome (load_props vd.props) ("versionCode") (.int vcode)
      have hvcv : dictGet? (mergeProps st2 (load_props vd.props)) ("versionCode") =
          some vcv := by rw [hmg, hvcv0]
      obtain ⟨hallapks, hst4⟩ := processApks_ok_necc _ _ _ _ _ h12 vcv hvcv
      refine ⟨vcode, base, baseSig, rfl, rfl, h3, h4, ⟨blines, h5, ?_⟩, ⟨vcv, hvcv0, ?_⟩, ?_⟩
      · intro kv hm hf ht
        obtain ⟨s, n, hs, hn, hpe⟩ := hkvs kv hm hf ht
        exact ⟨s, n, hs, hn, ((pvalEq_int_iff vcode n).mp hpe).symm⟩
      · intro a ha hsuf
        refine hallapks a ?_
        rw [mem_sortByKey]
        exact List.mem_filter.mpr ⟨ha, hsuf⟩
      · cases h13 : dictGet? st4 ("channel") with
        | none => rw [h13] at h; cases h
        | some chv2 =>
          rw [h13] at h
          try dsimp only at h
          by_cases h14 : pvalEq chv2 (.str ("old")) = true
          · rw [if_pos h14] at h
            injection h with ha hb
            injection ha with ha
            intro k v hkv
            rw [← ha] at hkv
            cases hkv
          · rw [if_neg h14] at h
            injection h with ha hb
            injection ha with ha
            intro k v hkv
            rw [← ha] at hkv
            injection hkv with hkv
            have hv2 : v = st4 := (congrArg Prod.snd hkv).symm
            refine ⟨chv2, ?_, ?_⟩
            · rw [hv2]; exact h13
            · cases hx : pvalEq chv2 (.str ("old"))
              · rfl
              · exact absurd hx h14

/-- A successful version fold: every version directory processed
successfully, and every published variant entry came from a successful
processVersion that returned it. -/
theorem processVersions_ok_necc (hashFn : List Nat → String)
    (pkgName containerPath : String) (sigsPV : PVal) (l : List VersionDir)
    (acc vars : Dict) (evs : List Event)
    (h : processVersions hashFn pkgName containerPath sigsPV acc l = (.ok vars, evs)) :
    (∀ vd ∈ l, ∃ res evs2,
      processVersion hashFn pkgName containerPath sigsPV vd = (.ok res, evs2)) ∧
    (∀ p ∈ vars, p ∈ acc ∨ ∃ vd v evs2, vd ∈ l ∧ p.2 = PVal.dict v ∧
      processVersion hashFn pkgName containerPath sigsPV vd = (.ok (some (p.1, v)), evs2)) := by
  induction l generalizing acc evs with
  | nil =>
    rw [processVersions] at h
    injection h with h1 h2
    injection h1 with h1
    subst h1
    exact ⟨by simp, fun p hp => .inl hp⟩
  | cons vd rest ih =>
    rw [processVersions] at h
    cases hr : processVersion hashFn pkgName containerPath sigsPV vd with
    | mk r evsv =>
      rw [hr] at h
      cases r with
      | error e => cases h
      | ok opt =>
        cases opt with
        | none =>
          try dsimp only at h
          cases h2 : processVersions hashFn pkgName containerPath sigsPV acc rest with
          | mk r2 evs2 =>
            rw [h2] at h
            try dsimp only at h
            injection h with ha hb
            subst ha
            obtain ⟨hall, hmem⟩ := ih acc evs2 h2
            refine ⟨?_, ?_⟩
            · intro x hx
              rcases List.mem_cons.mp hx with rfl | hx
              · exact ⟨none, evsv, hr⟩
              · exact hall x hx
            · intro p hp
              rcases hmem p hp with hin | ⟨vd2, v, evs3, hvd2, hpv, hpr⟩
              · exact .inl hin
              · exact .inr ⟨vd2, v, evs3, List.mem_cons.mpr (.inr hvd2), hpv, hpr⟩
        | some kv =>
          obtain ⟨k, v⟩ := kv
          try dsimp only at h
          cases h2 : processVersions hashFn pkgName containerPath sigsPV
              (dictSet acc k (.dict v)) rest with
          | mk r2 evs2 =>
            rw [h2] at h
            try dsimp only at h
            injection h with ha hb
            subst ha
            obtain ⟨hall, hmem⟩ := ih (dictSet acc k (.dict v)) evs2 h2
            refine ⟨?_, ?_⟩
            · intro x hx
              rcases List.mem_cons.mp hx with rfl | hx
              · exact ⟨some (k, v), evsv, hr⟩
              · exact hall x hx
            · intro p hp
              rcases hmem p hp with hin | ⟨vd2, v2, evs3, hvd2, hpv, hpr⟩
              · rcases mem_dictSet acc k (.dict v) p hin with hin2 | rfl
                · exact .inl hin2
                · exact .inr ⟨vd, v, evsv, List.mem_cons.mpr (.inl rfl), rfl, hr⟩
              · exact .inr ⟨vd2, v2, evs3, List.mem_cons.mpr (.inr hvd2), hpv, hpr⟩

/-- A successful processPackage decomposes into the signatures lookup and
a successful version fold; the produced package value is the common props
with the variants mapping set. -/
theorem processPackage_ok_necc (hashFn : List Nat → String) (pd : PackageDir)
    (kv : String × PVal) (evs : List Event)
    (h : processPackage hashFn pd = (.ok kv, evs)) :
    ∃ sigsPV vars evsv,
      dictGet? (iconProps pd) ("signatures") = some sigsPV ∧
      processVersions hashFn pd.name (("apps/packages/") ++ pd.name) sigsPV []
        (sortByKey VersionDir.name pd.versions) = (.ok vars, evsv) ∧
      kv = (pd.name, .dict (dictSet (iconProps pd) ("variants") (.dict vars))) := by
  rw [processPackage] at h
  cases h1 : dictGet? (iconProps pd) ("signatures") with
  | none => rw [h1] at h; cases h
  | some sigsPV =>
    rw [h1] at h
    try dsimp only at h
    cases h2 : processVersions hashFn pd.name (("apps/packages/") ++ pd.name) sigsPV []
        (sortByKey VersionDir.name pd.versions) with
    | mk r evsv =>
      rw [h2] at h
      cases r with
      | error e => cases h
      | ok vars =>
        try dsimp only at h
        injection h with ha hb
        injection ha with ha
        exact ⟨sigsPV, vars, evsv, rfl, h2, ha.symm⟩

/-- A successful package fold: every package directory processed
successfully, and every entry of the final packages dict came from a
successful processPackage. -/
theorem processPackages_ok_necc (hashFn : List Nat → String) (l : List PackageDir)
    (acc pkgs : Dict) (evs : List Event)
    (h : processPackages hashFn acc l = (.ok pkgs, evs)) :
    (∀ pd ∈ l, ∃ kv evs2, processPackage hashFn pd = (.ok kv, evs2)) ∧
    (∀ p ∈ pkgs, p ∈ acc ∨ ∃ pd evs2, pd ∈ l ∧
      processPackage hashFn pd = (.ok p, evs2)) := by
  induction l generalizing acc evs with
  | nil =>
    rw [processPackages] at h
    injection h with h1 h2
    injection h1 with h1
    subst h1
    exact ⟨by simp, fun p hp => .inl hp⟩
  | cons pd rest ih =>
    rw [processPackages] at h
    cases hr : processPackage hashFn pd with
    | mk r evsp =>
      rw [hr] at h
      cases r with
      | error e => cases h
      | ok kv =>
        obtain ⟨k, v⟩ := kv
        try dsimp only at h
        cases h2 : processPackages hashFn (dictSet acc k v) rest with
        | mk r2 evs2 =>
          rw [h2] at h
          try dsimp only at h
          injection h with ha hb
          subst ha
          obtain ⟨hall, hmem⟩ := ih (dictSet acc k v) evs2 h2
          refine ⟨?_, ?_⟩
          · intro x hx
            rcases List.mem_cons.mp hx with rfl | hx
            · exact ⟨(k, v), evsp, hr⟩
            · exact hall x hx
          · intro p hp
            rcases hmem p hp with hin | ⟨pd2, evs3, hpd2, hpr⟩
            · rcases mem_dictSet acc k v p hin with hin2 | rfl
              · exact .inl hin2
              · exact .inr ⟨pd, evsp, List.mem_cons.mpr (.inl rfl), hr⟩
            · exact .inr ⟨pd2, evs3, List.mem_cons.mpr (.inr hpd2), hpr⟩

/-- A successful run decomposes into a zero compression exit and a
successful package fold producing exactly the emitted packages dict. -/
theorem run_ok_necc (env : Env) (hashFn : List Nat → String)
    (serializeFn : Int → Dict → String) (t : Int) (pkgs : Dict) (evs : List Event)
    (h : run env hashFn serializeFn = (.ok (t, pkgs), evs)) :
    env.compressExit = 0 ∧
    ∃ evs2, processPackages hashFn [] (sortByKey PackageDir.name env.packages) =
      (.ok pkgs, evs2) := by
  rw [run] at h
  by_cases hc : (env.compressExit != 0) = true
  · rw [if_pos hc] at h; cases h
  · rw [if_neg hc] at h
    refine ⟨by simpa using hc, ?_⟩
    cases hp : processPackages hashFn [] (sortByKey PackageDir.name env.packages) with
    | mk r evs2 =>
      rw [hp] at h
      cases r with
      | error e => cases h
      | ok pkgs2 =>
        try dsimp only at h
        cases hs : env.signify with
        | none => rw [hs] at h; cases h
        | some sigFile =>
          rw [hs] at h
          try dsimp only at h
          cases hidx : pyIdx (pySplitlines sigFile) 1 with
          | error e => rw [hidx] at h; cases h
          | ok sig =>
            rw [hidx] at h
            try dsimp only at h
            injection h with h1 h2
            injection h1 with h1
            injection h1 with ht hpk
            exact ⟨evs2, by rw [hpk]⟩

/-! ## Claims C1, C3, C5 -/

/-- A split artifact whose digest sidecar already exists, but whose
apksigner output names a different signer than the primary and whose
badging declares a different version code. -/
def cexSplit : ApkEntry :=
  { name := ("split.apk"), mtime := 0, size := 20, gz := some (0, 8), br := some (0, 6),
    sidecar := some ("sh"), sigOutput := some [sigLine ("s2")],
    badging := some [[("versionCode=2")]], content := [2] }

def cexVd : VersionDir :=
  { name := ("1"), apks := [wApkCache, cexSplit],
    props := some [(("channel"), .str ("stable"))] }

def cexPd : PackageDir :=
  { name := ("a"), commonProps := some [(("signatures"), .list [.str ("s1")])],
    hasIcon := false, versions := [cexVd] }

def cexEnv : Env :=
  { compressExit := 0, packages := [cexPd], signify := some ("l1\nl2"), now := 7 }

def cexVariant : Dict :=
  [(("versionCode"), .int 1), (("apks"), .list [.str ("base.apk"), .str ("split.apk")]),
   (("apkHashes"), .list [.str ("bh"), .str ("sh")]),
   (("apkSizes"), .list [.int 10, .int 20]), (("apkGzSizes"), .list [.int 4, .int 8]),
   (("apkBrSizes"), .list [.int 3, .int 6]), (("minSdk"), .int 21),
   (("channel"), .str ("stable"))]

def cexPkgs : Dict :=
  [(("a"), .dict [(("signatures"), .list [.str ("s1")]),
    (("variants"), .dict [(("1"), .dict cexVariant)])])]

/-- Claim C1 counterexample: the split artifact has a pre-existing
sidecar, so its signature is never checked; the run succeeds and emits
the variant with split.apk in it although the split is signed by s2,
which differs from the primary signer s1 and is not in the trusted set. -/
theorem claim_C1_counterexample :
    (run cexEnv cHash cSer).1 = .ok (7, cexPkgs) ∧
    load_signature ("apps/packages/a/1/base.apk") wApkCache.sigOutput = .ok ("s1") ∧
    load_signature ("apps/packages/a/1/split.apk") cexSplit.sigOutput = .ok ("s2") ∧
    ("s2") ≠ ("s1") ∧
    pyIn ("s2") (.list [.str ("s1")]) = .ok false ∧
    dictGet? cexVariant ("apks") =
      some (.list [.str ("base.apk"), .str ("split.apk")]) ∧
    dictGet? cexVariant ("channel") = some (.str ("stable")) :=
  ⟨rfl, rfl, rfl, by decide, rfl, rfl, rfl⟩

/-- Claim C1 (amended): on a successful run, for every package directory
and every version directory, the primary artifact exists, its signature
digest is a member of the trusted-signature set, and every artifact that
had no sidecar digest file (and only those: a cached artifact is not
signature-checked at all) has signature digest equal to the primary
artifact signature digest. -/
theorem claim_C1_signatures_trusted_unless_cached (env : Env) (hashFn : List Nat → String)
    (serializeFn : Int → Dict → String) (t : Int) (pkgs : Dict) (evs : List Event)
    (hrun : run env hashFn serializeFn = (.ok (t, pkgs), evs))
    (pd : PackageDir) (hpd : pd ∈ env.packages) (vd : VersionDir)
    (hvd : vd ∈ pd.versions) :
    ∃ base baseSig sigsPV,
      vd.apks.find? (fun a => a.name == ("base.apk")) = some base ∧
      dictGet? (iconProps pd) ("signatures") = some sigsPV ∧
      load_signature ((("apps/packages/") ++ pd.name) ++ ("/") ++ vd.name ++ ("/base.apk"))
        base.sigOutput = .ok baseSig ∧
      pyIn baseSig sigsPV = .ok true ∧
      ∀ a ∈ vd.apks, pyEndswith a.name (".apk") = true → a.sidecar = none →
        load_signature
          ((("apps/packages/") ++ pd.name) ++ ("/") ++ vd.name ++ ("/") ++ a.name)
          a.sigOutput = .ok baseSig := by
  obtain ⟨hcz, evs2, hpp⟩ := run_ok_necc env hashFn serializeFn t pkgs evs hrun
  obtain ⟨hall, -⟩ := processPackages_ok_necc hashFn _ [] pkgs evs2 hpp
  obtain ⟨kv, evs3, hpkg⟩ := hall pd ((mem_sortByKey PackageDir.name pd _).mpr hpd)
  obtain ⟨sigsPV, vars, evsv, hsig, hver, hkv⟩ :=
    processPackage_ok_necc hashFn pd kv evs3 hpkg
  obtain ⟨hallv, -⟩ := processVersions_ok_necc hashFn pd.name _ sigsPV _ [] vars evsv hver
  obtain ⟨res, evs4, hv⟩ := hallv vd ((mem_sortByKey VersionDir.name vd _).mpr hvd)
  obtain ⟨vcode, base, baseSig, hvc, hbase, hls, hin, -, ⟨vcv, hvcv, happs⟩, -⟩ :=
    processVersion_ok_necc hashFn pd.name (("apps/packages/") ++ pd.name) sigsPV vd res
      evs4 hv
  refine ⟨base, baseSig, sigsPV, hbase, hsig, hls, hin, ?_⟩
  intro a ha hsuf hsc
  exact ((happs a ha hsuf).2.2 hsc).1

theorem claim_C1_witness :
    ∃ base baseSig sigsPV,
      wVd.apks.find? (fun a => a.name == ("base.apk")) = some base ∧
      dictGet? (iconProps wPd) ("signatures") = some sigsPV ∧
      load_signature ("apps/packages/a/1/base.apk") base.sigOutput = .ok baseSig ∧
      pyIn baseSig sigsPV = .ok true ∧
      ∀ a ∈ wVd.apks, pyEndswith a.name (".apk") = true → a.sidecar = none →
        load_signature (("apps/packages/a/1/") ++ a.name) a.sigOutput = .ok baseSig := by
  have h := claim_C1_signatures_trusted_unless_cached wEnvOk cHash cSer 7 wPkgsOk wEvsOk
    rfl wPd (by simp [wEnvOk]) wVd (by simp [wPd])
  obtain ⟨base, baseSig, sigsPV, h1, h2, h3, h4, h5⟩ := h
  exact ⟨base, baseSig, sigsPV, h1, h2, h3, h4, fun a ha hsuf hsc => h5 a ha hsuf hsc⟩

def cexVdOld : VersionDir :=
  { name := ("1"), apks := [wApkCache, cexSplit],
    props := some [(("channel"), .str ("old"))] }

def cexPdOld : PackageDir :=
  { name := ("a"), commonProps := some [(("signatures"), .list [.str ("s1")])],
    hasIcon := false, versions := [cexVdOld] }

def cexEnvOld : Env :=
  { compressExit := 0, packages := [cexPdOld], signify := some ("l1\nl2"), now := 7 }

/-- Claim C3 counterexample: under an old-channel version, a split with a
pre-existing sidecar and a signature different from the primary (a
malformed input in the claim sense) does NOT abort the run: the run
succeeds (and, as claimed, the old variant is absent from the emitted
mapping). -/
theorem claim_C3_counterexample :
    (run cexEnvOld cHash cSer).1 =
      .ok (7, [(("a"), .dict [(("signatures"), .list [.str ("s1")]),
        (("variants"), .dict [])])]) ∧
    load_signature ("apps/packages/a/1/base.apk") wApkCache.sigOutput = .ok ("s1") ∧
    load_signature ("apps/packages/a/1/split.apk") cexSplit.sigOutput = .ok ("s2") ∧
    ("s2") ≠ ("s1") ∧ cexSplit.sidecar = some ("sh") :=
  ⟨rfl, rfl, rfl, by decide, rfl⟩

/-- Claim C3 (amended): a variant on the old channel never appears in the
emitted variant mapping (every emitted variant record carries a channel
other than old); and every version directory, old ones included, is still
validated before the manifest is emitted: the primary artifact must exist
with a trusted signature, every artifact must have compression companions
with matching timestamps, and every artifact without a sidecar digest
file must carry the primary signature and declare the version's effective
versionCode value in its badging — but artifacts with a pre-existing
sidecar are not signature- or version-checked, so malformed data hiding
behind a sidecar does not abort the run. -/
theorem claim_C3_old_never_emitted_but_validated :
    (∀ (env : Env) (hashFn : List Nat → String) (serializeFn : Int → Dict → String)
      (t : Int) (pkgs : Dict) (evs : List Event),
      run env hashFn serializeFn = (.ok (t, pkgs), evs) →
      ∀ pn pv, dictGet? pkgs pn = some pv →
      ∀ d, pv = PVal.dict d →
      ∀ vs, dictGet? d ("variants") = some (.dict vs) →
      ∀ p ∈ vs, ∃ st ch, p.2 = PVal.dict st ∧ dictGet? st ("channel") = some ch ∧
        pvalEq ch (.str ("old")) = false) ∧
    (∀ (env : Env) (hashFn : List Nat → String) (serializeFn : Int → Dict → String)
      (t : Int) (pkgs : Dict) (evs : List Event),
      run env hashFn serializeFn = (.ok (t, pkgs), evs) →
      ∀ pd ∈ env.packages, ∀ vd ∈ pd.versions,
      ∃ vcode base baseSig sigsPV,
        pyInt? vd.name = some vcode ∧
        vd.apks.find? (fun a => a.name == ("base.apk")) = some base ∧
        dictGet? (iconProps pd) ("signatures") = some sigsPV ∧
        load_signature ((("apps/packages/") ++ pd.name) ++ ("/") ++ vd.name ++ ("/base.apk"))
          base.sigOutput = .ok baseSig ∧
        pyIn baseSig sigsPV = .ok true ∧
        ∃ vcv, mergedGet (load_props vd.props) ("versionCode") (some (.int vcode)) =
          some vcv ∧
        ∀ a ∈ vd.apks, pyEndswith a.name (".apk") = true →
          (∃ gzS, a.gz = some (a.mtime, gzS)) ∧ (∃ brS, a.br = some (a.mtime, brS)) ∧
          (a.sidecar = none →
            load_signature
              ((("apps/packages/") ++ pd.name) ++ ("/") ++ vd.name ++ ("/") ++ a.name)
              a.sigOutput = .ok baseSig ∧
            ∃ blines n, a.badging = some blines ∧
              splitBadgeLoop pd.name (firstLine blines) none = .ok (some n) ∧
              pvalEq vcv (.int n) = true)) := by
  constructor
  · intro env hashFn serializeFn t pkgs evs hrun pn pv hget d hpv vs hvs p hp
    obtain ⟨hcz, evs2, hpp⟩ := run_ok_necc env hashFn serializeFn t pkgs evs hrun
    obtain ⟨-, hmem⟩ := processPackages_ok_necc hashFn _ [] pkgs evs2 hpp
    have hpin : (pn, pv) ∈ pkgs := dictGet?_mem pkgs pn pv hget
    rcases hmem (pn, pv) hpin with hin | ⟨pd2, evs3, hpd2, hpr⟩
    · cases hin
    · obtain ⟨sigsPV, vars, evsv, hsig, hver, hkv⟩ :=
        processPackage_ok_necc hashFn pd2 _ evs3 hpr
      have hpv2 : pv = PVal.dict (dictSet (iconProps pd2) ("variants") (.dict vars)) :=
        congrArg Prod.snd hkv
      rw [hpv] at hpv2
      injection hpv2 with hd
      subst hd
      rw [dictGet?_set_self] at hvs
      injection hvs with hvs
      injection hvs with hvs
      subst hvs
      obtain ⟨-, hvmem⟩ := processVersions_ok_necc hashFn pd2.name _ sigsPV _ [] vars evsv hver
      rcases hvmem p hp with hin | ⟨vd2, v, evs4, hvd2, hpv3, hprv⟩
      · cases hin
      · obtain ⟨vcode, base, baseSig, -, -, -, -, -, -, hch⟩ :=
          processVersion_ok_necc hashFn pd2.name (("apps/packages/") ++ pd2.name) sigsPV
            vd2 (some (p.1, v)) evs4 hprv
        obtain ⟨ch, hchv, hchf⟩ := hch p.1 v rfl
        exact ⟨v, ch, hpv3, hchv, hchf⟩
  · intro env hashFn serializeFn t pkgs evs hrun pd hpd vd hvd
    obtain ⟨hcz, evs2, hpp⟩ := run_ok_necc env hashFn serializeFn t pkgs evs hrun
    obtain ⟨hall, -⟩ := processPackages_ok_necc hashFn _ [] pkgs evs2 hpp
    obtain ⟨kv, evs3, hpkg⟩ := hall pd ((mem_sortByKey PackageDir.name pd _).mpr hpd)
    obtain ⟨sigsPV, vars, evsv, hsig, hver, hkv⟩ :=
      processPackage_ok_necc hashFn pd kv evs3 hpkg
    obtain ⟨hallv, -⟩ := processVersions_ok_necc hashFn pd.name _ sigsPV _ [] vars evsv hver
    obtain ⟨res, evs4, hv⟩ := hallv vd ((mem_sortByKey VersionDir.name vd _).mpr hvd)
    obtain ⟨vcode, base, baseSig, hvc, hbase, hls, hin, -, ⟨vcv, hvcv, happs⟩, -⟩ :=
      processVersion_ok_necc hashFn pd.name (("apps/packages/") ++ pd.name) sigsPV vd res
        evs4 hv
    refine ⟨vcode, base, baseSig, sigsPV, hvc, hbase, hsig, hls, hin, vcv, hvcv, ?_⟩
    intro a ha hsuf
    exact happs a ha hsuf

theorem claim_C3_witness :
    (∃ st ch, ((("1"), PVal.dict wVariantOk) : String × PVal).2 = PVal.dict st ∧
      dictGet? st ("channel") = some ch ∧ pvalEq ch (.str ("old")) = false) ∧
    (∃ vcode base baseSig sigsPV,
      pyInt? wVd.name = some vcode ∧
      wVd.apks.find? (fun a => a.name == ("base.apk")) = some base ∧
      dictGet? (iconProps wPd) ("signatures") = some sigsPV ∧
      load_signature ("apps/packages/a/1/base.apk") base.sigOutput = .ok baseSig ∧
      pyIn baseSig sigsPV = .ok true ∧
      ∃ vcv, mergedGet (load_props wVd.props) ("versionCode") (some (.int vcode)) =
        some vcv ∧
      ∀ a ∈ wVd.apks, pyEndswith a.name (".apk") = true →
        (∃ gzS, a.gz = some (a.mtime, gzS)) ∧ (∃ brS, a.br = some (a.mtime, brS)) ∧
        (a.sidecar = none →
          load_signature (("apps/packages/a/1/") ++ a.name) a.sigOutput = .ok baseSig ∧
          ∃ blines n, a.badging = some blines ∧
            splitBadgeLoop ("a") (firstLine blines) none = .ok (some n) ∧
            pvalEq vcv (.int n) = true)) := by
  have h := claim_C3_old_never_emitted_but_validated
  constructor
  · exact h.1 wEnvOk cHash cSer 7 wPkgsOk wEvsOk rfl ("a")
      (.dict [(("signatures"), .list [.str ("s1")]),
        (("variants"), .dict [(("1"), .dict wVariantOk)])])
      rfl
      [(("signatures"), .list [.str ("s1")]),
        (("variants"), .dict [(("1"), .dict wVariantOk)])]
      rfl [(("1"), .dict wVariantOk)] rfl ((("1"), .dict wVariantOk)) (by simp)
  · exact h.2 wEnvOk cHash cSer 7 wPkgsOk wEvsOk rfl wPd (by simp [wEnvOk]) wVd
      (by simp [wPd])

/-- Claim C5 counterexample: the split artifact has a pre-existing
sidecar, so its declared version code is never checked; the run succeeds
and emits the variant (version code 1) with split.apk in it although the
split badging declares version code 2. -/
theorem claim_C5_counterexample :
    (run cexEnv cHash cSer).1 = .ok (7, cexPkgs) ∧
    cexSplit.badging = some [[("versionCode=2")]] ∧
    splitBadgeLoop ("a") (firstLine [[("versionCode=2")]]) none = .ok (some 2) ∧
    cexSplit.sidecar = some ("sh") ∧
    dictGet? cexVariant ("versionCode") = some (.int 1) ∧
    dictGet? cexVariant ("apks") =
      some (.list [.str ("base.apk"), .str ("split.apk")]) ∧
    (2 : Int) ≠ 1 :=
  ⟨rfl, rfl, rfl, rfl, rfl, rfl, by decide⟩

/-- Claim C5 (amended): on a successful run, for every version directory
the version code is the integer parsed from the directory name; every
versionCode token in the primary artifact badging equals it; and every
artifact that had no sidecar digest file (and only those: cached
artifacts are not version-checked) has a declared version code equal to
the variant effective versionCode value, which is the directory-derived
code unless the per-version props override the versionCode key. -/
theorem claim_C5_version_codes_checked_unless_cached (env : Env)
    (hashFn : List Nat → String) (serializeFn : Int → Dict → String) (t : Int)
    (pkgs : Dict) (evs : List Event)
    (hrun : run env hashFn serializeFn = (.ok (t, pkgs), evs))
    (pd : PackageDir) (hpd : pd ∈ env.packages) (vd : VersionDir)
    (hvd : vd ∈ pd.versions) :
    ∃ vcode base,
      pyInt? vd.name = some vcode ∧
      vd.apks.find? (fun a => a.name == ("base.apk")) = some base ∧
      (∃ blines, base.badging = some blines ∧
        ∀ kv ∈ firstLine blines, pyStartswith kv ("versionName") = false →
          pyStartswith kv ("versionCode") = true →
          ∃ s n, pyIdx (pySplit kv ("=")) 1 = .ok s ∧ pyInt? s = some n ∧ n = vcode) ∧
      ∃ vcv, mergedGet (load_props vd.props) ("versionCode") (some (.int vcode)) =
          some vcv ∧
        ∀ a ∈ vd.apks, pyEndswith a.name (".apk") = true → a.sidecar = none →
          ∃ blines2 n, a.badging = some blines2 ∧
            splitBadgeLoop pd.name (firstLine blines2) none = .ok (some n) ∧
            pvalEq vcv (.int n) = true := by
  obtain ⟨hcz, evs2, hpp⟩ := run_ok_necc env hashFn serializeFn t pkgs evs hrun
  obtain ⟨hall, -⟩ := processPackages_ok_necc hashFn _ [] pkgs evs2 hpp
  obtain ⟨kv, evs3, hpkg⟩ := hall pd ((mem_sortByKey PackageDir.name pd _).mpr hpd)
  obtain ⟨sigsPV, vars, evsv, hsig, hver, hkv⟩ :=
    processPackage_ok_necc hashFn pd kv evs3 hpkg
  obtain ⟨hallv, -⟩ := processVersions_ok_necc hashFn pd.name _ sigsPV _ [] vars evsv hver
  obtain ⟨res, evs4, hv⟩ := hallv vd ((mem_sortByKey VersionDir.name vd _).mpr hvd)
  obtain ⟨vcode, base, baseSig, hvc, hbase, hls, hin, ⟨blines, hbd, hkvs⟩,
    ⟨vcv, hvcv, happs⟩, -⟩ :=
    processVersion_ok_necc hashFn pd.name (("apps/packages/") ++ pd.name) sigsPV vd res
      evs4 hv
  refine ⟨vcode, base, hvc, hbase, ⟨blines, hbd, hkvs⟩, vcv, hvcv, ?_⟩
  intro a ha hsuf hsc
  exact ((happs a ha hsuf).2.2 hsc).2

theorem claim_C5_witness :
    ∃ vcode base,
      pyInt? wVd.name = some vcode ∧
      wVd.apks.find? (fun a => a.name == ("base.apk")) = some base ∧
      (∃ blines, base.badging = some blines ∧
        ∀ kv ∈ firstLine blines, pyStartswith kv ("versionName") = false →
          pyStartswith kv ("versionCode") = true →
          ∃ s n, pyIdx (pySplit kv ("=")) 1 = .ok s ∧ pyInt? s = some n ∧ n = vcode) ∧
      ∃ vcv, mergedGet (load_props wVd.props) ("versionCode") (some (.int vcode)) =
          some vcv ∧
        ∀ a ∈ wVd.apks, pyEndswith a.name (".apk") = true → a.sidecar = none →
          ∃ blines2 n, a.badging = some blines2 ∧
            splitBadgeLoop wPd.name (firstLine blines2) none = .ok (some n) ∧
            pvalEq vcv (.int n) = true :=
  claim_C5_version_codes_checked_unless_cached wEnvOk cHash cSer 7 wPkgsOk wEvsOk rfl
    wPd (by simp [wEnvOk]) wVd (by simp [wPd])

end AppsRepo
